import Mathlib

/-!
# Verification of the virtualtar generator / parser pair

This file embeds the core of the `js-virtualtar` repository in Lean:
the USTAR header layout helpers (`utils`), the block-oriented
`Generator` and `Parser` state machines, and the streaming facades
`VirtualTarGenerator` / `VirtualTarParser`.  Bytes are modelled as
natural numbers below 256, byte arrays and JS strings as `List Nat`
(one element per UTF-16 code unit; all paths and values considered
here are ASCII, where code units and UTF-8 bytes coincide).  Fallible
operations return `Except`.
-/

deriving instance DecidableEq for Except

set_option maxRecDepth 100000

namespace VirtualTar

/-- A byte string / JS string: one `Nat` per byte (or code unit). -/
abbrev Bytes := List Nat

/-- `BLOCK_SIZE` from `constants`: every tar block is 512 bytes. -/
def blockSize : Nat := 512

/-- `STANDARD_PATH_SIZE` from `constants`. -/
def standardPathSize : Nat := 255

/-- `USTAR_NAME = 'ustar'` as char codes. -/
def ustarName : Bytes := [117, 115, 116, 97, 114]

/-- `USTAR_VERSION = '00'` as char codes. -/
def ustarVersion : Bytes := [48, 48]

/-- `'./PaxHeader'` as char codes (path used by `generateExtended`). -/
def paxHeaderPath : Bytes := [46, 47, 80, 97, 120, 72, 101, 97, 100, 101, 114]

/-- `'path'` as char codes (the PAX keyword used by the facades). -/
def paxKeyPath : Bytes := [112, 97, 116, 104]

/-! ## Header field offsets and sizes (from `constants.HEADER_OFFSET` /
`constants.HEADER_SIZE`). -/

def fileNameOff : Nat := 0
def fileModeOff : Nat := 100
def ownerUidOff : Nat := 108
def ownerGidOff : Nat := 116
def fileSizeOff : Nat := 124
def fileMtimeOff : Nat := 136
def checksumOff : Nat := 148
def typeFlagOff : Nat := 156
def ustarNameOff : Nat := 257
def ustarVersionOff : Nat := 263
def ownerUserNameOff : Nat := 265
def ownerGroupNameOff : Nat := 297
def prefixFieldOff : Nat := 345

def fileNameSize : Nat := 100
def fileModeSize : Nat := 8
def ownerUidSize : Nat := 8
def ownerGidSize : Nat := 8
def fileSizeSize : Nat := 12
def fileMtimeSize : Nat := 12
def checksumSize : Nat := 8
def typeFlagSize : Nat := 1
def ustarNameSize : Nat := 6
def ustarVersionSize : Nat := 2
def ownerUserNameSize : Nat := 32
def ownerGroupNameSize : Nat := 32
def prefixFieldSize : Nat := 155

/-! ## JS string / number primitives -/

/-- Digits of `n` in base `b`, least significant first.  The first
argument is descent fuel; `toDigitsLE b n n` is always exact because
`n / b < n` for `n > 0`, `b ≥ 2`. -/
def toDigitsLE (b : Nat) : Nat → Nat → List Nat
  | 0, _ => []
  | _ + 1, 0 => []
  | fuel + 1, n => (n % b) :: toDigitsLE b fuel (n / b)

/-- JS `n.toString(8)` for a non-negative number, as char codes.
`(0).toString(8) = "0"`. -/
def toOctalString (n : Nat) : Bytes :=
  if n = 0 then [48] else ((toDigitsLE 8 n n).reverse).map (· + 48)

/-- JS `n.toString()` (decimal) for a non-negative number, as char codes. -/
def toDecimalString (n : Nat) : Bytes :=
  if n = 0 then [48] else ((toDigitsLE 10 n n).reverse).map (· + 48)

/-- JS `s.padStart(len, c)` for a one-char pad string. -/
def padStartL (l : Bytes) (len : Nat) (c : Nat) : Bytes :=
  List.replicate (len - l.length) c ++ l

/-- JS `s.padEnd(len, c)` for a one-char pad string. -/
def padEndL (l : Bytes) (len : Nat) (c : Nat) : Bytes :=
  l ++ List.replicate (len - l.length) c

/-- `pad(value, length, '0', end)` from `utils`, numeric `value` case:
`value.toString(8).padStart(length - end.length, '0') + end`. -/
def padNum (value : Nat) (length : Nat) (endL : Bytes) : Bytes :=
  padStartL (toOctalString value) (length - endL.length) 48 ++ endL

/-- `pad('', length, '0', end)` from `utils`: the empty string is passed
when a stat field is absent; `''.toString(8) = ''` so the result is all
`'0'` pad characters followed by `end`. -/
def padEmpty (length : Nat) (endL : Bytes) : Bytes :=
  padStartL [] (length - endL.length) 48 ++ endL

/-- `pad(v ?? '', length, '0', end)` for an optional numeric stat field. -/
def padOptNum (v : Option Nat) (length : Nat) (endL : Bytes) : Bytes :=
  match v with
  | some n => padNum n length endL
  | none => padEmpty length endL

/-- `writeBytesToArray(array, bytes, offset, length)` from `utils`.
Indices are clamped to the array, at most `length` bytes are written,
and storing into a `Uint8Array` truncates each value modulo 256. -/
def writeBytesToArray (array : Bytes) (bytes : Bytes) (offset length : Nat) :
    Bytes :=
  let start := min offset array.length
  let maxLength := min (array.length - start) length
  let written := min bytes.length maxLength
  array.take start ++ (bytes.take written).map (· % 256) ++
    array.drop (start + written)

/-- One step of the checksum fold: bytes in the checksum field
`[148, 156)` count as ASCII space (32). -/
def checksumStep (acc : Nat) (i : Nat) (b : Nat) : Nat :=
  if 148 ≤ i ∧ i < 156 then acc + 32 else acc + b

/-- Indexed tail of the checksum reduction. -/
def checksumGo : Nat → Nat → Bytes → Nat
  | acc, _, [] => acc
  | acc, i, b :: rest => checksumGo (checksumStep acc i b) (i + 1) rest

/-- `calculateChecksum` from `utils`: `array.reduce` without an initial
value starts from the first element (index 0 is never in the checksum
field, so it is added as-is) and folds the rest from index 1. -/
def calculateChecksum : Bytes → Nat
  | [] => 0
  | b :: rest => checksumGo b 1 rest

/-! ## Header field writers (from `utils`) -/

/-- `writeFilePath(header, filePath)`.  `filePath.slice(0, 100)` padded
to 100 is the source's `filePathSuffix` (here `partLow`);
`filePath.slice(100, 255)` padded to 155 is the source's
`filePathPrefix` (here `partHigh`).  For paths shorter than 100 chars
only the name field is written; otherwise `partHigh` goes to the name
field (offset 0) and `partLow` to the 155-byte field at offset 345. -/
def writeFilePath (header : Bytes) (filePath : Bytes) : Bytes :=
  let partLow := padEndL (filePath.take fileNameSize) fileNameSize 0
  if filePath.length < fileNameSize then
    writeBytesToArray header partLow fileNameOff fileNameSize
  else
    let partHigh :=
      padEndL ((filePath.drop fileNameSize).take prefixFieldSize)
        prefixFieldSize 0
    let h1 := writeBytesToArray header partHigh fileNameOff fileNameSize
    writeBytesToArray h1 partLow prefixFieldOff prefixFieldSize

/-- `writeFileMode(header, mode)`. -/
def writeFileMode (header : Bytes) (mode : Option Nat) : Bytes :=
  writeBytesToArray header (padOptNum mode fileModeSize [0]) fileModeOff
    fileModeSize

/-- `writeOwnerUid(header, uid)`. -/
def writeOwnerUid (header : Bytes) (uid : Option Nat) : Bytes :=
  writeBytesToArray header (padOptNum uid ownerUidSize [0]) ownerUidOff
    ownerUidSize

/-- `writeOwnerGid(header, gid)`. -/
def writeOwnerGid (header : Bytes) (gid : Option Nat) : Bytes :=
  writeBytesToArray header (padOptNum gid ownerGidSize [0]) ownerGidOff
    ownerGidSize

/-- `writeFileSize(header, size)`. -/
def writeFileSize (header : Bytes) (size : Option Nat) : Bytes :=
  writeBytesToArray header (padOptNum size fileSizeSize [0]) fileSizeOff
    fileSizeSize

/-- `dateToTarTime(date)`: `Math.floor(ms / 1000)`; dates are modelled
as milliseconds since the epoch. -/
def dateToTarTime (ms : Nat) : Nat := ms / 1000

/-- `tarTimeToDate(time)`: `new Date(time * 1000)` in milliseconds. -/
def tarTimeToDate (time : Int) : Int := time * 1000

/-- `writeFileMtime(header, mtime)`; an absent date writes `''`. -/
def writeFileMtime (header : Bytes) (mtime : Option Nat) : Bytes :=
  writeBytesToArray header
    (padOptNum (mtime.map dateToTarTime) fileMtimeSize [0]) fileMtimeOff
    fileMtimeSize

/-- Entry types, with their type-flag char codes. -/
inductive FType
  | file
  | directory
  | extended
  deriving DecidableEq

/-- `EntryType.FILE = '0'`, `DIRECTORY = '5'`, `EXTENDED = 'x'`. -/
def ftypeCode : FType → Nat
  | .file => 48
  | .directory => 53
  | .extended => 120

/-- The path actually stored by `generateHeader`: every directory path
gets a trailing `'/'` appended unless already present. -/
def dirAdjustPath (type : FType) (filePath : Bytes) : Bytes :=
  if type = .directory then
    if filePath.getLast? = some 47 then filePath else filePath ++ [47]
  else filePath

/-- `writeFileType(header, type)`:
`pad(entryType, 1, '0', '\0')` resolves to the two-char string
`entryType + '\0'` (string values ignore the octal conversion), of
which `writeBytesToArray` stores only the first byte. -/
def writeFileType (header : Bytes) (type : FType) : Bytes :=
  writeBytesToArray header [ftypeCode type, 0] typeFlagOff typeFlagSize

/-- `writeOwnerUserName(header, username)`. -/
def writeOwnerUserName (header : Bytes) (username : Option Bytes) : Bytes :=
  writeBytesToArray header
    (padEndL (username.getD []) ownerUserNameSize 0) ownerUserNameOff
    ownerUserNameSize

/-- `writeOwnerGroupName(header, groupname)`. -/
def writeOwnerGroupName (header : Bytes) (groupname : Option Bytes) : Bytes :=
  writeBytesToArray header
    (padEndL (groupname.getD []) ownerGroupNameSize 0) ownerGroupNameOff
    ownerGroupNameSize

/-- `writeUstarMagic(header)`: writes `'ustar'` (5 bytes into the
6-byte magic field, leaving the trailing NUL) and version `'00'`. -/
def writeUstarMagic (header : Bytes) : Bytes :=
  let h1 := writeBytesToArray header ustarName ustarNameOff ustarNameSize
  writeBytesToArray h1 ustarVersion ustarVersionOff ustarVersionSize

/-- `writeChecksum(header, checksum)`:
`pad(checksum, 8, '0', '\0')`, i.e. 7 zero-padded octal digits and a
single NUL terminator. -/
def writeChecksum (header : Bytes) (checksum : Nat) : Bytes :=
  writeBytesToArray header (padNum checksum checksumSize [0]) checksumOff
    checksumSize

/-! ## Generator (from `Generator.ts`) -/

/-- `FileStat` from `types`: all fields optional.  `mtime` is a JS
`Date`, modelled as milliseconds since the epoch. -/
structure FileStat where
  size : Option Nat := none
  mode : Option Nat := none
  mtime : Option Nat := none
  uid : Option Nat := none
  gid : Option Nat := none
  uname : Option Bytes := none
  gname : Option Bytes := none
  deriving DecidableEq

/-- Generator error classes (`errors.ts`). -/
inductive GenError
  | invalidFileName
  | invalidStat
  | invalidState
  | blockSizeErr
  | endOfArchive
  deriving DecidableEq

/-- The header block of `Generator.generateHeader` just before the
checksum is written: USTAR magic and version, type flag, (possibly
slash-adjusted) file path, mode, uid, gid, user and group names, size
and mtime written into a fresh 512-byte block, in source order. -/
def headerCore (filePath : Bytes) (type : FType) (stat : FileStat) : Bytes :=
  writeFileMtime
    (writeFileSize
      (writeOwnerGroupName
        (writeOwnerUserName
          (writeOwnerGid
            (writeOwnerUid
              (writeFileMode
                (writeFilePath
                  (writeFileType (writeUstarMagic (List.replicate blockSize 0))
                    type)
                  (dirAdjustPath type filePath))
                stat.mode)
              stat.uid)
            stat.gid)
          stat.uname)
        stat.gname)
      stat.size)
    stat.mtime

/-- `Generator.generateHeader(filePath, type, stat)`: validates the
path length, the size bound `0o7777777`, and the user/group name
lengths; appends `'/'` to directory paths; then writes all header
fields into a fresh 512-byte block and finally the checksum. -/
def generateHeader (filePath : Bytes) (type : FType) (stat : FileStat) :
    Except GenError Bytes :=
  if filePath.length > 255 then .error .invalidFileName
  else if stat.size.getD 0 > 0o7777777 then .error .invalidStat
  else if (stat.uname.getD []).length > ownerUserNameSize then
    .error .invalidStat
  else if (stat.gname.getD []).length > ownerGroupNameSize then
    .error .invalidStat
  else
    .ok (writeChecksum (headerCore filePath type stat)
      (calculateChecksum (headerCore filePath type stat)))

/-- Generator states (`GeneratorState`). -/
inductive GState
  | header
  | data
  | nullBlk
  | ended
  deriving DecidableEq

/-- The `Generator` instance state. -/
structure Generator where
  state : GState := .header
  remaining : Nat := 0
  deriving DecidableEq

/-- A fresh `new Generator()`. -/
def genInit : Generator := {}

/-- `Generator.generateFile(filePath, stat)`. -/
def generateFile (g : Generator) (filePath : Bytes) (stat : FileStat) :
    Except GenError (Bytes × Generator) :=
  if g.state = .header then
    match stat.size with
    | none => .error .invalidStat
    | some n => do
      let block ← generateHeader filePath .file stat
      if n ≠ 0 then
        .ok (block, { state := .data, remaining := n })
      else
        .ok (block, g)
  else .error .invalidState

/-- `Generator.generateDirectory(filePath, stat?)`: the stat is spread
with `size: 0` before header generation. -/
def generateDirectory (g : Generator) (filePath : Bytes)
    (stat : Option FileStat) : Except GenError (Bytes × Generator) :=
  if g.state = .header then do
    let block ← generateHeader filePath .directory
      { stat.getD {} with size := some 0 }
    .ok (block, g)
  else .error .invalidState

/-- `Generator.generateExtended(size)`. -/
def generateExtended (g : Generator) (size : Nat) :
    Except GenError (Bytes × Generator) :=
  if g.state = .header then do
    let block ← generateHeader paxHeaderPath .extended { size := some size }
    .ok (block, { state := .data, remaining := size })
  else .error .invalidState

/-- `Generator.generateData(data)`: while at least a full block of
payload remains the chunk is returned unchanged; on the final short
block the chunk must equal the remaining count and is zero-padded to
512 bytes. -/
def generateData (g : Generator) (data : Bytes) :
    Except GenError (Bytes × Generator) :=
  if g.state = .data then
    if data.length > blockSize then .error .blockSizeErr
    else if g.remaining ≥ blockSize then
      let r := g.remaining - blockSize
      .ok (data, { state := if r = 0 then .header else .data, remaining := r })
    else if data.length ≠ g.remaining then .error .blockSizeErr
    else
      .ok (data ++ List.replicate (blockSize - data.length) 0,
        { state := .header, remaining := 0 })
  else .error .invalidState

/-- `Generator.generateEnd()`. -/
def generateEnd (g : Generator) : Except GenError (Bytes × Generator) :=
  match g.state with
  | .header => .ok (List.replicate blockSize 0, { g with state := .nullBlk })
  | .nullBlk => .ok (List.replicate blockSize 0, { g with state := .ended })
  | _ => .error .endOfArchive

/-! ## Extraction helpers (parser side of `utils`) -/

/-- The slice `[off, off + len)` of a byte list (JS `subarray` with
non-negative clamped indices). -/
def sliceL (l : Bytes) (off len : Nat) : Bytes := (l.drop off).take len

/-- `extractBytes(array, offset, length, stop)` for non-negative
`offset`/`length` and an optional stopping character: the loop lowers
`end` to the first occurrence of the stop character, which on the
clamped slice is exactly `takeWhile (· ≠ stop)`. -/
def extractBytesField (arr : Bytes) (off len : Nat) (stop : Option Nat) :
    Bytes :=
  match stop with
  | none => sliceL arr off len
  | some s => (sliceL arr off len).takeWhile (· ≠ s)

/-- `extractString(array, offset, length)` with the default `'\0'`
stopping character. -/
def extractString (arr : Bytes) (off len : Nat) : Bytes :=
  extractBytesField arr off len (some 0)

/-- Is `c` parsed as whitespace by JS `parseInt` (ASCII range)? -/
def isJsWs (c : Nat) : Bool := c = 32 ∨ (9 ≤ c ∧ c ≤ 13)

/-- Is `c` a digit char below base `b` (for `b ≤ 10`)? -/
def isDigitBase (b c : Nat) : Bool := 48 ≤ c ∧ c < 48 + b

/-- JS `parseInt(s, b)` for base `b ≤ 10`: skip whitespace, read an
optional sign, then the maximal run of digits; `none` models `NaN`. -/
def parseIntBase (b : Nat) (s : Bytes) : Option Int :=
  let s1 := s.dropWhile isJsWs
  let signNeg : Bool := s1.head? = some 45
  let s2 := if s1.head? = some 45 ∨ s1.head? = some 43 then s1.tail else s1
  let digs := s2.takeWhile (isDigitBase b)
  if digs.isEmpty then none
  else
    let v : Int := digs.foldl (fun a d => a * b + ((d : Int) - 48)) 0
    some (if signNeg then -v else v)

/-- `extractOctal(array, offset, length)`: empty extracted string gives
0, otherwise `parseInt(s, 8)` (where `none` models `NaN`). -/
def extractOctal (arr : Bytes) (off len : Nat) : Option Int :=
  let s := extractString arr off len
  if s.isEmpty then some 0 else parseIntBase 8 s

/-- `extractDecimal(array, offset, length, stop)`. -/
def extractDecimal (arr : Bytes) (off len : Nat) (stop : Option Nat) :
    Option Int :=
  let s := extractBytesField arr off len stop
  if s.isEmpty then some 0 else parseIntBase 10 s

/-- `isNullBlock(array)`: all of the first 512 entries exist and are
zero (a missing entry reads as `undefined !== 0`). -/
def isNullBlock (arr : Bytes) : Bool :=
  (List.range blockSize).all fun i =>
    match arr.get? i with
    | some 0 => true
    | _ => false

/-! ## Header field decoders (from `utils`) -/

/-- `decodeFilePath(array)`: prefix-field string concatenated with the
name-field string when the former is non-empty. -/
def decodeFilePath (arr : Bytes) : Bytes :=
  let fileNamePre := extractString arr prefixFieldOff prefixFieldSize
  let fileNameSuf := extractString arr fileNameOff fileNameSize
  if fileNamePre ≠ [] then fileNamePre ++ fileNameSuf else fileNameSuf

def decodeFileMode (arr : Bytes) : Option Int :=
  extractOctal arr fileModeOff fileModeSize

def decodeOwnerUid (arr : Bytes) : Option Int :=
  extractOctal arr ownerUidOff ownerUidSize

def decodeOwnerGid (arr : Bytes) : Option Int :=
  extractOctal arr ownerGidOff ownerGidSize

def decodeFileSize (arr : Bytes) : Option Int :=
  extractOctal arr fileSizeOff fileSizeSize

/-- `decodeFileMtime(array)`: `tarTimeToDate` of the octal field, as a
`Date` in milliseconds (`none` models an invalid date from `NaN`). -/
def decodeFileMtime (arr : Bytes) : Option Int :=
  (extractOctal arr fileMtimeOff fileMtimeSize).map tarTimeToDate

def decodeOwnerUserName (arr : Bytes) : Bytes :=
  extractString arr ownerUserNameOff ownerUserNameSize

def decodeOwnerGroupName (arr : Bytes) : Bytes :=
  extractString arr ownerGroupNameOff ownerGroupNameSize

/-- Parser error classes (`errors.ts`). -/
inductive ParseError
  | invalidHeader
  | blockSizeErr
  | endOfArchive
  deriving DecidableEq

/-- `decodeFileType(array)`: unknown type flags throw
`ErrorVirtualTarParserInvalidHeader`. -/
def decodeFileType (arr : Bytes) : Except ParseError FType :=
  let t := extractString arr typeFlagOff typeFlagSize
  if t = [48] then .ok .file
  else if t = [53] then .ok .directory
  else if t = [120] then .ok .extended
  else .error .invalidHeader

def decodeUstarMagic (arr : Bytes) : Bytes :=
  extractString arr ustarNameOff ustarNameSize

def decodeUstarVersion (arr : Bytes) : Bytes :=
  extractString arr ustarVersionOff ustarVersionSize

def decodeChecksum (arr : Bytes) : Option Int :=
  extractOctal arr checksumOff checksumSize

/-! ## Parser (from `Parser.ts`) -/

/-- A parsed header token (`TokenHeader`).  Numeric fields are decoded
octal values where `none` models `NaN`. -/
structure TokenHeader where
  filePath : Bytes
  fileType : FType
  fileMode : Option Int
  fileMtime : Option Int
  fileSize : Option Int
  ownerGid : Option Int
  ownerUid : Option Int
  ownerUserName : Bytes
  ownerGroupName : Bytes
  deriving DecidableEq

/-- A parser token (`TokenHeader | TokenData | TokenEnd`). -/
inductive PToken
  | header (tok : TokenHeader)
  | dataTok (data : Bytes) (endFlag : Bool)
  | endTok
  deriving DecidableEq

/-- `Parser.parseHeader(array)`: checksum, magic and version checks,
then field decoding (`decodeFileType` may itself throw). -/
def parseHeaderE (arr : Bytes) : Except ParseError TokenHeader := do
  if decodeChecksum arr ≠ some (calculateChecksum arr : Int) then
    throw .invalidHeader
  if decodeUstarMagic arr ≠ ustarName then throw .invalidHeader
  if decodeUstarVersion arr ≠ ustarVersion then throw .invalidHeader
  let fileType ← decodeFileType arr
  .ok
    { filePath := decodeFilePath arr
      fileType := fileType
      fileMode := decodeFileMode arr
      fileMtime := decodeFileMtime arr
      fileSize := decodeFileSize arr
      ownerGid := decodeOwnerGid arr
      ownerUid := decodeOwnerUid arr
      ownerUserName := decodeOwnerUserName arr
      ownerGroupName := decodeOwnerGroupName arr }

/-- Parser states (`ParserState`). -/
inductive PState
  | header
  | data
  | nullBlk
  | ended
  deriving DecidableEq

/-- The remaining-bytes counter is a JS number: `none` models `NaN`
(which a malformed octal size field can produce). -/
abbrev JsNum := Option Int

/-- The `Parser` instance state. -/
structure Parser where
  state : PState := .header
  remaining : JsNum := some 0
  deriving DecidableEq

/-- A fresh `new Parser()`. -/
def parserInit : Parser := {}

/-- JS `x > k` (false for `NaN`). -/
def jsGt (x : JsNum) (k : Int) : Bool :=
  match x with
  | none => false
  | some v => v > k

/-- JS `x <= k` (false for `NaN`). -/
def jsLe (x : JsNum) (k : Int) : Bool :=
  match x with
  | none => false
  | some v => v ≤ k

/-- JS `x - k` (`NaN` absorbs). -/
def jsSub (x : JsNum) (k : Int) : JsNum := x.map (· - k)

/-- `extractBytes(array, 0, remainingBytes)` as called from
`parseData`: a `NaN` length yields an empty slice, a negative length
`-k` is an end index relative to the end of the array, a non-negative
length is an ordinary clamped end index. -/
def extractBytesData (arr : Bytes) (len : JsNum) : Bytes :=
  match len with
  | none => []
  | some v =>
    if v < 0 then arr.take (arr.length - v.natAbs)
    else arr.take v.toNat

/-- `Parser.parseData(array, remainingBytes)`. -/
def parseData (arr : Bytes) (remaining : JsNum) : PToken :=
  if jsGt remaining 512 then .dataTok arr false
  else .dataTok (extractBytesData arr remaining) true

/-- `Parser.write(data)`, returning the successor parser state together
with the result.  A thrown error leaves the parser state exactly as the
source does: in every throwing branch of `write` the throw happens
before any assignment to `this.state` / `this.remainingBytes`, so the
returned state is the input state on those paths. -/
def parserWrite (p : Parser) (data : Bytes) :
    Parser × Except ParseError (Option PToken) :=
  if data.length ≠ blockSize then (p, .error .blockSizeErr)
  else
    match p.state with
    | .ended => (p, .error .endOfArchive)
    | .header =>
      if isNullBlock data then ({ p with state := .nullBlk }, .ok none)
      else
        match parseHeaderE data with
        | .error e => (p, .error e)
        | .ok tok =>
          let p' :=
            if tok.fileType = .file then
              if tok.fileSize ≠ some 0 then
                { state := .data, remaining := tok.fileSize }
              else p
            else if tok.fileType = .extended then
              { state := .data, remaining := tok.fileSize }
            else p
          (p', .ok (some (.header tok)))
    | .data =>
      let tok := parseData data p.remaining
      let r' := jsSub p.remaining 512
      let st' := if jsLe r' 0 then PState.header else PState.data
      ({ state := st', remaining := r' }, .ok (some tok))
    | .nullBlk =>
      if isNullBlock data then ({ p with state := .ended }, .ok (some .endTok))
      else (p, .error .endOfArchive)

/-- Feed a list of blocks through the parser, collecting each call's
result. -/
def feedAll (p : Parser) : List Bytes → Parser × List (Except ParseError (Option PToken))
  | [] => (p, [])
  | b :: bs =>
    let (p', r) := parserWrite p b
    let (pf, rs) := feedAll p' bs
    (pf, r :: rs)

/-! ## PAX extended headers (from `utils`) -/

/-- The per-entry size computation of `encodeExtendedHeader`: an
initial guess `key.length + value.length + 3` (space, `=`, newline) is
adjusted once by the length of its own decimal digits. -/
def paxDeclaredSize (key value : Bytes) : Nat :=
  let guess := key.length + value.length + 3
  guess + (toDecimalString guess).length

/-- The full line `"<size> <key>=<value>\n"` built for one entry. -/
def paxLine (key value : Bytes) : Bytes :=
  toDecimalString (paxDeclaredSize key value) ++ [32] ++ key ++ [61] ++
    value ++ [10]

/-- The `encodeInto` loop of `encodeExtendedHeader`: each line is
written into the remaining space of the output buffer (truncating when
the buffer, sized by the declared sizes, is too small); a write of zero
bytes throws. -/
def paxEncodeLoop (total : Nat) : Nat → List Bytes → Except Unit Bytes
  | _, [] => .ok []
  | offset, e :: es => do
    let written := min e.length (total - offset)
    if written = 0 then throw ()
    let rest ← paxEncodeLoop total (offset + written) es
    .ok (e.take written ++ rest)

/-- `encodeExtendedHeader(data)` over an association list of key/value
pairs (JS object entries in insertion order). -/
def encodeExtendedHeader (data : List (Bytes × Bytes)) : Except Unit Bytes :=
  let entries := data.map fun kv => paxLine kv.1 kv.2
  let total := (data.map fun kv => paxDeclaredSize kv.1 kv.2).sum
  do
    let out ← paxEncodeLoop total 0 entries
    .ok (out ++ List.replicate (total - out.length) 0)

/-- JS object update `data[key] = value` on an association list. -/
def assocSet (m : List (Bytes × Bytes)) (key value : Bytes) :
    List (Bytes × Bytes) :=
  if m.any (fun kv => kv.1 = key) then
    m.map fun kv => if kv.1 = key then (key, value) else kv
  else m ++ [(key, value)]

/-- JS object read `m[key]`. -/
def assocGet (m : List (Bytes × Bytes)) (key : Bytes) : Option Bytes :=
  (m.find? fun kv => kv.1 = key).map (·.2)

/-- `array.subarray(offset, offset + size)` where `size` is a JS number
(possibly `NaN` or negative). -/
def jsSubarraySized (arr : Bytes) (offset : Nat) (size : JsNum) : Bytes :=
  match size with
  | none => []
  | some v =>
    if v < 0 then []
    else sliceL arr offset (v.toNat)

/-- One pass of `decodeExtendedHeader`'s loop, with descent fuel: reads
the decimal size up to the first space, slices the full line, splits it
at the first space and the first `=`, drops the final character of the
value, and advances by `size`.  Whenever the sliced line has no space
(in particular for a non-positive or `NaN` size) the source throws. -/
def decodeExtLoop (arr : Bytes) : Nat → Nat → Nat → Except Unit (List (Bytes × Bytes))
  | _, _, 0 => .ok []
  | 0, _, _ + 1 => .error ()
  | fuel + 1, offset, _remaining + 1 => do
    let sizeJ := extractDecimal arr offset (arr.length - offset) (some 32)
    let fullLine := jsSubarraySized arr offset sizeJ
    if fullLine.indexOf 32 = fullLine.length then .error ()
    else
      match sizeJ with
      | none => .error ()
      | some size =>
        let line := (fullLine.drop (fullLine.indexOf 32)).drop 1
        if line.indexOf 61 = line.length then .error ()
        else
          let key := line.take (line.indexOf 61)
          let value := (line.drop (line.indexOf 61 + 1)).dropLast
          do
            let rest ← decodeExtLoop arr fuel (offset + size.toNat)
              ((_remaining + 1) - size.toNat)
            .ok ((key, value) :: rest)

/-- `decodeExtendedHeader(array)`: the loop above folded into the
key/value map.  The fuel is the array length, which bounds the number
of iterations because each one advances the offset by `size ≥ 1`. -/
def decodeExtendedHeader (arr : Bytes) : Except Unit (List (Bytes × Bytes)) := do
  let pairs ← decodeExtLoop arr arr.length 0 arr.length
  .ok (pairs.foldl (fun m kv => assocSet m kv.1 kv.2) [])

/-! ## The streaming facades (`VirtualTarGenerator` / `VirtualTarParser`) -/

/-- A logical archive entry handed to `VirtualTarGenerator`; file
content is given as a byte buffer (the `Uint8Array` overload of
`addFile`). -/
inductive Entry
  | fileEnt (path : Bytes) (stat : FileStat) (content : Bytes)
  | dirEnt (path : Bytes) (stat : Option FileStat)
  deriving DecidableEq

/-- Chunking loop body with descent fuel (one unit per iteration; the
iteration count is bounded by the data length). -/
def chunkGo : Nat → Bytes → List Bytes
  | _, [] => []
  | 0, _ => []
  | fuel + 1, rest => rest.take blockSize :: chunkGo fuel (rest.drop blockSize)

/-- The 512-byte re-chunking loop `for offset … offset += 512` used for
extended-header data and `Uint8Array` file content: the list of
`subarray(offset, offset + 512)` slices. -/
def chunkEvery512 (data : Bytes) : List Bytes :=
  chunkGo data.length data

/-- Feed a list of data chunks through `Generator.generateData`,
collecting the produced blocks. -/
def genDataChunks (g : Generator) : List Bytes → Except GenError (List Bytes × Generator)
  | [] => .ok ([], g)
  | c :: cs => do
    let (b, g1) ← generateData g c
    let (bs, g2) ← genDataChunks g1 cs
    .ok (b :: bs, g2)

/-- `VirtualTarGenerator.generateHeader(filePath, stat, type)`: paths
longer than 255 characters get a PAX extended header carrying
`path=<filePath>` followed by its data blocks, and the normal header is
then generated with an empty path. -/
def vtgGenerateHeader (g : Generator) (filePath : Bytes) (stat : Option FileStat)
    (isFile : Bool) : Except GenError (List Bytes × Generator) := do
  let (extBlocks, g1) ←
    if filePath.length > standardPathSize then do
      match encodeExtendedHeader [(paxKeyPath, filePath)] with
      | .error _ => .error .invalidState
      | .ok data => do
        let (hdr, ga) ← generateExtended g data.length
        let (dataBlocks, gb) ← genDataChunks ga (chunkEvery512 data)
        .ok (hdr :: dataBlocks, gb)
    else .ok ([], g)
  let path1 := if filePath.length ≤ 255 then filePath else []
  if isFile then do
    let (hdr, g2) ← generateFile g1 path1 (stat.getD {})
    .ok (extBlocks ++ [hdr], g2)
  else do
    let (hdr, g2) ← generateDirectory g1 path1 stat
    .ok (extBlocks ++ [hdr], g2)

/-- The blocks produced for one queued `addFile` / `addDirectory`
operation of `VirtualTarGenerator`. -/
def vtgEntryBlocks (g : Generator) : Entry → Except GenError (List Bytes × Generator)
  | .fileEnt path stat content => do
    let (hdrs, g1) ← vtgGenerateHeader g path (some stat) true
    let (dataBlocks, g2) ← genDataChunks g1 (chunkEvery512 content)
    .ok (hdrs ++ dataBlocks, g2)
  | .dirEnt path stat => vtgGenerateHeader g path stat false

/-- The queue-draining loop of `yieldChunks` over a list of entries. -/
def vtgEntriesGo (g : Generator) : List Entry → Except GenError (List Bytes × Generator)
  | [] => .ok ([], g)
  | e :: es => do
    let (bs, g1) ← vtgEntryBlocks g e
    let (rest, g2) ← vtgEntriesGo g1 es
    .ok (bs ++ rest, g2)

/-- All blocks yielded by `yieldChunks` for a queue of entries followed
by `finalize()` (two `generateEnd` calls). -/
def vtgRun (entries : List Entry) : Except GenError (List Bytes) := do
  let (blocks, g1) ← vtgEntriesGo genInit entries
  let (z1, g2) ← generateEnd g1
  let (z2, _) ← generateEnd g2
  .ok (blocks ++ [z1, z2])

/-- The stat record dispatched by `VirtualTarParser` callbacks. -/
structure ParsedStat where
  size : Option Int
  mode : Option Int
  mtime : Option Int
  uid : Option Int
  gid : Option Int
  uname : Bytes
  gname : Bytes
  deriving DecidableEq

/-- The stat attached to a dispatched header token. -/
def statOfToken (tok : TokenHeader) : ParsedStat :=
  { size := tok.fileSize
    mode := tok.fileMode
    mtime := tok.fileMtime
    uid := tok.ownerUid
    gid := tok.ownerGid
    uname := tok.ownerUserName
    gname := tok.ownerGroupName }

/-- An entry dispatched to the caller's callbacks (`ParsedFile` /
`ParsedDirectory`, with the file content fully collected from the
lazy data generator). -/
inductive ParsedEntry
  | pfile (path : Bytes) (stat : ParsedStat) (content : Bytes)
  | pdir (path : Bytes) (stat : ParsedStat)
  deriving DecidableEq

/-- Facade errors: a parser error, a decode failure of PAX data, or
the facade's own invalid-state error. -/
inductive VtpError
  | parseErr (e : ParseError)
  | decodeErr
  | invalidState
  deriving DecidableEq

/-- The mutable state of `VirtualTarParser`, minus the callback
plumbing: the wrapped parser, the working header token's type, the
extended-data queue, the pending PAX metadata, the file entry whose
data tokens are still arriving, and the entries dispatched so far. -/
structure VtpState where
  parser : Parser := parserInit
  working : Option FType := none
  dataQueue : List Bytes := []
  extendedMeta : Option (List (Bytes × Bytes)) := none
  pendingFile : Option (Bytes × ParsedStat × Bytes) := none
  entries : List ParsedEntry := []
  deriving DecidableEq

/-- Processing of one 512-byte block inside `VirtualTarParser.write`:
feed it to the parser and dispatch the resulting token. -/
def vtpStep (st : VtpState) (blk : Bytes) : Except VtpError VtpState :=
  match parserWrite st.parser blk with
  | (_, .error e) => .error (.parseErr e)
  | (p', .ok none) => .ok { st with parser := p' }
  | (p', .ok (some tok)) =>
    match tok with
    | .header tok =>
      let fp :=
        match st.extendedMeta with
        | some m => (assocGet m paxKeyPath).getD tok.filePath
        | none => tok.filePath
      let st1 := { st with parser := p', working := none, extendedMeta := none }
      match tok.fileType with
      | .directory =>
        .ok { st1 with entries := st1.entries ++ [.pdir fp (statOfToken tok)] }
      | .file =>
        if tok.fileSize = some 0 then
          .ok { st1 with
            working := some FType.file
            entries := st1.entries ++ [.pfile fp (statOfToken tok) []] }
        else
          .ok { st1 with
            working := some FType.file
            pendingFile := some (fp, statOfToken tok, []) }
      | .extended => .ok { st1 with working := some FType.extended }
    | .dataTok d endFlag =>
      match st.working with
      | none => .error .invalidState
      | some .extended =>
        let q := st.dataQueue ++ [d]
        if endFlag then
          match decodeExtendedHeader q.flatten with
          | .error _ => .error .decodeErr
          | .ok m =>
            .ok { st with parser := p', dataQueue := q, extendedMeta := some m }
        else .ok { st with parser := p', dataQueue := q }
      | some _ =>
        match st.pendingFile with
        | none => .ok { st with parser := p' }
        | some (fp, s, acc) =>
          if endFlag then
            .ok { st with
              parser := p'
              pendingFile := none
              entries := st.entries ++ [.pfile fp s (acc ++ d)] }
          else
            .ok { st with parser := p', pendingFile := some (fp, s, acc ++ d) }
    | .endTok => .ok { st with parser := p' }

/-- Fold `vtpStep` over a list of blocks. -/
def vtpGo (st : VtpState) : List Bytes → Except VtpError VtpState
  | [] => .ok st
  | b :: bs => do
    let st' ← vtpStep st b
    vtpGo st' bs

/-- Feed a whole archive (as a list of 512-byte blocks) through the
parsing facade and collect the dispatched entries. -/
def vtpRun (blocks : List Bytes) : Except VtpError (List ParsedEntry) := do
  let stF ← vtpGo {} blocks
  .ok stF.entries

/-- Errors of the complete generate-then-parse pipeline. -/
inductive PipeError
  | genErr (e : GenError)
  | parseErr (e : VtpError)
  deriving DecidableEq

/-- The full round trip: generate an archive from a list of entries via
`VirtualTarGenerator` driving `Generator`, then parse the block stream
via `Parser` driving `VirtualTarParser`. -/
def roundTrip (entries : List Entry) : Except PipeError (List ParsedEntry) :=
  match vtgRun entries with
  | .error e => .error (.genErr e)
  | .ok blocks =>
    match vtpRun blocks with
    | .error e => .error (.parseErr e)
    | .ok parsed => .ok parsed

/-! ## Input construction helpers for the theorems -/

/-- The ⌈n/512⌉ zero-padded data blocks for an `n`-byte content, as the
archive format prescribes (each block 512 bytes, the last zero-padded).
The first argument of the worker is descent fuel. -/
def chunkPadGo : Nat → Bytes → List Bytes
  | _, [] => []
  | 0, _ => []
  | fuel + 1, rest =>
    padEndL (rest.take blockSize) blockSize 0 ::
      chunkPadGo fuel (rest.drop blockSize)

/-- Zero-padded 512-byte blocks of a content buffer. -/
def chunkPad (content : Bytes) : List Bytes :=
  chunkPadGo content.length content

/-- The expected data-token run for an `n`-byte file: 512-byte payloads
with `end = false`, then the final `n mod 512` (or 512) bytes with
`end = true`. -/
def dataRunGo : Nat → Bytes → List (Bytes × Bool)
  | _, [] => []
  | 0, _ => []
  | fuel + 1, content =>
    if content.length ≤ blockSize then [(content, true)]
    else (content.take blockSize, false) :: dataRunGo fuel (content.drop blockSize)

/-- Expected data-token payload/end pairs for a content buffer. -/
def dataRun (content : Bytes) : List (Bytes × Bool) :=
  dataRunGo content.length content

/-- The payload carried by a parser result (empty for non-data
results). -/
def dataPayload : Except ParseError (Option PToken) → Bytes
  | .ok (some (.dataTok d _)) => d
  | _ => []

/-- A concrete valid file header used as a witness input: the header
emitted by `generateFile` for path `'f'` and size 3. -/
def c9WitnessHeader : Bytes :=
  match generateFile genInit [102] { size := some 3 } with
  | .ok r => r.1
  | .error _ => []

/-- The header token the parser recovers from `c9WitnessHeader`. -/
def c9WitnessTok : TokenHeader :=
  { filePath := [102]
    fileType := .file
    fileMode := some 0
    fileMtime := some 0
    fileSize := some 3
    ownerGid := some 0
    ownerUid := some 0
    ownerUserName := []
    ownerGroupName := [] }

/-! ## Toolkit lemmas: `writeBytesToArray`, slices, checksums -/

theorem wbta_length (a bs : Bytes) (off len : Nat) :
    (writeBytesToArray a bs off len).length = a.length := by
  simp only [writeBytesToArray, List.length_append, List.length_take,
    List.length_map, List.length_drop]
  omega

/-- A write of at most the field length whose region fits in the
array: the array splits around the written bytes. -/
theorem wbta_eq (a bs : Bytes) (off len : Nat) (h : off + len ≤ a.length)
    (hbs : bs.length ≤ len) :
    writeBytesToArray a bs off len =
      a.take off ++ bs.map (· % 256) ++ a.drop (off + bs.length) := by
  simp only [writeBytesToArray]
  rw [show min off a.length = off by omega]
  rw [show min (a.length - off) len = len by omega]
  rw [show min bs.length len = bs.length by omega]
  rw [List.take_length]

/-- A write longer than the field: only the first `len` bytes are
stored. -/
theorem wbta_eq_trunc (a bs : Bytes) (off len : Nat)
    (h : off + len ≤ a.length) (hbs : len ≤ bs.length) :
    writeBytesToArray a bs off len =
      a.take off ++ (bs.take len).map (· % 256) ++ a.drop (off + len) := by
  simp only [writeBytesToArray]
  rw [show min off a.length = off by omega]
  rw [show min (a.length - off) len = len by omega]
  rw [show min bs.length len = len by omega]

theorem wbta_all_lt (a bs : Bytes) (off len : Nat)
    (ha : ∀ x ∈ a, x < 256) :
    ∀ x ∈ writeBytesToArray a bs off len, x < 256 := by
  intro x hx
  simp only [writeBytesToArray, List.mem_append, List.mem_map] at hx
  rcases hx with (hx | ⟨y, _, rfl⟩) | hx
  · exact ha x (List.mem_of_mem_take hx)
  · exact Nat.mod_lt _ (by omega)
  · exact ha x (List.mem_of_mem_drop hx)

theorem sliceL_length (l : Bytes) (off len : Nat)
    (h : off + len ≤ l.length) : (sliceL l off len).length = len := by
  simp only [sliceL, List.length_take, List.length_drop]
  omega

/-- Slicing a region that lies before an appended tail. -/
theorem sliceL_append_left (x y : Bytes) (off len : Nat)
    (h : off + len ≤ x.length) :
    sliceL (x ++ y) off len = sliceL x off len := by
  simp only [sliceL, List.drop_append_eq_append_drop,
    List.take_append_eq_append_take]
  rw [show len - (x.drop off).length = 0 by simp [List.length_drop]; omega]
  rw [show y.drop (off - x.length) = y.drop (off - x.length) from rfl]
  simp

/-- Slicing a region that lies entirely inside an appended tail. -/
theorem sliceL_append_right (x y : Bytes) (off len : Nat)
    (h : x.length ≤ off) :
    sliceL (x ++ y) off len = sliceL y (off - x.length) len := by
  simp only [sliceL, List.drop_append_eq_append_drop]
  rw [List.drop_eq_nil_of_le (by omega : x.length ≤ off)]
  simp

theorem sliceL_all (l : Bytes) : sliceL l 0 l.length = l := by
  simp [sliceL]

theorem sliceL_replicate (n c off len : Nat) :
    sliceL (List.replicate n c) off len =
      List.replicate (min len (n - off)) c := by
  simp [sliceL, List.drop_replicate, List.take_replicate]

/-- Slicing below the cut of a `take`. -/
theorem sliceL_take (a : Bytes) (n off len : Nat) (h : off + len ≤ n) :
    sliceL (a.take n) off len = sliceL a off len := by
  simp only [sliceL, List.drop_take, List.take_take]
  congr 1
  omega

/-- Slicing inside a `drop`. -/
theorem sliceL_drop (a : Bytes) (n off len : Nat) :
    sliceL (a.drop n) off len = sliceL a (n + off) len := by
  simp only [sliceL, List.drop_drop]

/-- The region written by `writeBytesToArray`, when the bytes fill the
whole field. -/
theorem sliceL_wbta_self (a bs : Bytes) (off len : Nat)
    (h : off + len ≤ a.length) (hbs : len ≤ bs.length) :
    sliceL (writeBytesToArray a bs off len) off len =
      (bs.take len).map (· % 256) := by
  rw [wbta_eq_trunc a bs off len h hbs, List.append_assoc]
  rw [sliceL_append_right _ _ _ _ (by simp only [List.length_take]; omega)]
  rw [show off - (a.take off).length = 0 by simp [List.length_take]; omega]
  rw [sliceL_append_left _ _ _ _
    (by simp only [List.length_take, List.length_map]; omega)]
  simp only [sliceL, List.drop_zero]
  apply List.take_of_length_le
  simp only [List.length_take, List.length_map]
  omega

/-- The region written by a short write, followed by the untouched
remainder of the field. -/
theorem sliceL_wbta_short (a bs : Bytes) (off len : Nat)
    (h : off + len ≤ a.length) (hbs : bs.length ≤ len) :
    sliceL (writeBytesToArray a bs off len) off len =
      bs.map (· % 256) ++ sliceL a (off + bs.length) (len - bs.length) := by
  rw [wbta_eq a bs off len h hbs, List.append_assoc]
  rw [sliceL_append_right _ _ _ _ (by simp only [List.length_take]; omega)]
  rw [show off - (a.take off).length = 0 by simp [List.length_take]; omega]
  simp only [sliceL, List.drop_zero, List.take_append_eq_append_take]
  rw [List.take_of_length_le (l := bs.map (· % 256)) (by simp only [List.length_map]; omega)]
  congr 1
  simp only [List.length_map]

/-- A write does not disturb a disjoint region. -/
theorem sliceL_wbta_disjoint (a bs : Bytes) (off len off' len' : Nat)
    (h : off + len ≤ a.length)
    (hd : off' + len' ≤ off ∨ off + len ≤ off') :
    sliceL (writeBytesToArray a bs off len) off' len' =
      sliceL a off' len' := by
  simp only [writeBytesToArray]
  rw [show min off a.length = off by omega]
  have hwlen : min bs.length (min (a.length - off) len) ≤ len := by omega
  have hwbs : min bs.length (min (a.length - off) len) ≤ bs.length := by
    omega
  rcases hd with hd | hd
  · rw [List.append_assoc]
    rw [sliceL_append_left _ _ _ _ (by simp only [List.length_take]; omega)]
    exact sliceL_take a off off' len' (by omega)
  · rw [List.append_assoc]
    rw [sliceL_append_right _ _ _ _ (by simp only [List.length_take]; omega)]
    rw [sliceL_append_right _ _ _ _
      (by simp only [List.length_map, List.length_take]; omega)]
    rw [sliceL_drop]
    congr 1
    simp only [List.length_map, List.length_take, List.length_take]
    omega

/-! ## Writer lengths and byte bounds -/

@[simp] theorem writeFileMode_length (h : Bytes) (m : Option Nat) :
    (writeFileMode h m).length = h.length := wbta_length ..

@[simp] theorem writeOwnerUid_length (h : Bytes) (v : Option Nat) :
    (writeOwnerUid h v).length = h.length := wbta_length ..

@[simp] theorem writeOwnerGid_length (h : Bytes) (v : Option Nat) :
    (writeOwnerGid h v).length = h.length := wbta_length ..

@[simp] theorem writeFileSize_length (h : Bytes) (v : Option Nat) :
    (writeFileSize h v).length = h.length := wbta_length ..

@[simp] theorem writeFileMtime_length (h : Bytes) (v : Option Nat) :
    (writeFileMtime h v).length = h.length := wbta_length ..

@[simp] theorem writeFileType_length (h : Bytes) (t : FType) :
    (writeFileType h t).length = h.length := wbta_length ..

@[simp] theorem writeOwnerUserName_length (h : Bytes) (v : Option Bytes) :
    (writeOwnerUserName h v).length = h.length := wbta_length ..

@[simp] theorem writeOwnerGroupName_length (h : Bytes) (v : Option Bytes) :
    (writeOwnerGroupName h v).length = h.length := wbta_length ..

@[simp] theorem writeChecksum_length (h : Bytes) (c : Nat) :
    (writeChecksum h c).length = h.length := wbta_length ..

@[simp] theorem writeUstarMagic_length (h : Bytes) :
    (writeUstarMagic h).length = h.length := by
  simp [writeUstarMagic, wbta_length]

@[simp] theorem writeFilePath_length (h : Bytes) (p : Bytes) :
    (writeFilePath h p).length = h.length := by
  unfold writeFilePath
  split
  · exact wbta_length ..
  · simp [wbta_length]

@[simp] theorem headerCore_length (p : Bytes) (t : FType) (st : FileStat) :
    (headerCore p t st).length = blockSize := by
  simp [headerCore]

theorem writeFilePath_all_lt (h p : Bytes) (ha : ∀ x ∈ h, x < 256) :
    ∀ x ∈ writeFilePath h p, x < 256 := by
  unfold writeFilePath
  split
  · exact wbta_all_lt _ _ _ _ ha
  · exact wbta_all_lt _ _ _ _ (wbta_all_lt _ _ _ _ ha)

theorem headerCore_all_lt (p : Bytes) (t : FType) (st : FileStat) :
    ∀ x ∈ headerCore p t st, x < 256 := by
  have base : ∀ x ∈ List.replicate blockSize 0, x < 256 := by
    intro x hx
    rw [List.eq_of_mem_replicate hx]
    omega
  have s1 : ∀ x ∈ writeUstarMagic (List.replicate blockSize 0), x < 256 :=
    wbta_all_lt _ _ _ _ (wbta_all_lt _ _ _ _ base)
  have s2 : ∀ x ∈ writeFileType (writeUstarMagic
      (List.replicate blockSize 0)) t, x < 256 :=
    wbta_all_lt _ _ _ _ s1
  have s3 := writeFilePath_all_lt _ (dirAdjustPath t p) s2
  have s4 : ∀ x ∈ writeFileMode (writeFilePath (writeFileType
      (writeUstarMagic (List.replicate blockSize 0)) t)
      (dirAdjustPath t p)) st.mode, x < 256 :=
    wbta_all_lt _ _ _ _ s3
  have s5 : ∀ x ∈ writeOwnerUid (writeFileMode (writeFilePath (writeFileType
      (writeUstarMagic (List.replicate blockSize 0)) t)
      (dirAdjustPath t p)) st.mode) st.uid, x < 256 :=
    wbta_all_lt _ _ _ _ s4
  have s6 : ∀ x ∈ writeOwnerGid (writeOwnerUid (writeFileMode (writeFilePath
      (writeFileType (writeUstarMagic (List.replicate blockSize 0)) t)
      (dirAdjustPath t p)) st.mode) st.uid) st.gid, x < 256 :=
    wbta_all_lt _ _ _ _ s5
  have s7 : ∀ x ∈ writeOwnerUserName (writeOwnerGid (writeOwnerUid
      (writeFileMode (writeFilePath (writeFileType (writeUstarMagic
      (List.replicate blockSize 0)) t) (dirAdjustPath t p)) st.mode)
      st.uid) st.gid) st.uname, x < 256 :=
    wbta_all_lt _ _ _ _ s6
  have s8 : ∀ x ∈ writeOwnerGroupName (writeOwnerUserName (writeOwnerGid
      (writeOwnerUid (writeFileMode (writeFilePath (writeFileType
      (writeUstarMagic (List.replicate blockSize 0)) t)
      (dirAdjustPath t p)) st.mode) st.uid) st.gid) st.uname) st.gname,
      x < 256 :=
    wbta_all_lt _ _ _ _ s7
  have s9 : ∀ x ∈ writeFileSize (writeOwnerGroupName (writeOwnerUserName
      (writeOwnerGid (writeOwnerUid (writeFileMode (writeFilePath
      (writeFileType (writeUstarMagic (List.replicate blockSize 0)) t)
      (dirAdjustPath t p)) st.mode) st.uid) st.gid) st.uname) st.gname)
      st.size, x < 256 :=
    wbta_all_lt _ _ _ _ s8
  have s10 : ∀ x ∈ writeFileMtime (writeFileSize (writeOwnerGroupName
      (writeOwnerUserName (writeOwnerGid (writeOwnerUid (writeFileMode
      (writeFilePath (writeFileType (writeUstarMagic
      (List.replicate blockSize 0)) t) (dirAdjustPath t p)) st.mode)
      st.uid) st.gid) st.uname) st.gname) st.size) st.mtime, x < 256 :=
    wbta_all_lt _ _ _ _ s9
  exact s10

/-! ## Checksum arithmetic -/

theorem checksumGo_append (acc i : Nat) (l₁ l₂ : Bytes) :
    checksumGo acc i (l₁ ++ l₂) =
      checksumGo (checksumGo acc i l₁) (i + l₁.length) l₂ := by
  induction l₁ generalizing acc i with
  | nil => simp [checksumGo]
  | cons b t ih =>
    show checksumGo (checksumStep acc i b) (i + 1) (t ++ l₂) = _
    rw [ih]
    have h1 : i + 1 + t.length = i + (b :: t).length := by
      simp
      omega
    rw [h1]
    rfl

/-- Inside the checksum field every byte counts as a space. -/
theorem checksumGo_const32 (acc i : Nat) (l : Bytes) (h1 : 148 ≤ i)
    (h2 : i + l.length ≤ 156) : checksumGo acc i l = acc + 32 * l.length := by
  induction l generalizing acc i with
  | nil => simp [checksumGo]
  | cons b t ih =>
    show checksumGo (checksumStep acc i b) (i + 1) t = _
    rw [ih _ _ (by omega) (by simp at h2; omega)]
    have : checksumStep acc i b = acc + 32 := by
      unfold checksumStep
      rw [if_pos]
      constructor
      · omega
      · simp at h2
        omega
    rw [this]
    simp
    ring

/-- The checksum is insensitive to the contents of bytes 148..155. -/
theorem calculateChecksum_set_chk (x y₁ y₂ z : Bytes) (hx : x.length = 148)
    (hy₁ : y₁.length = 8) (hy₂ : y₂.length = 8) :
    calculateChecksum (x ++ y₁ ++ z) = calculateChecksum (x ++ y₂ ++ z) := by
  cases x with
  | nil => simp at hx
  | cons a t =>
    show calculateChecksum (a :: (t ++ y₁ ++ z)) =
      calculateChecksum (a :: (t ++ y₂ ++ z))
    have ht : t.length = 147 := by
      simp at hx
      omega
    show checksumGo a 1 (t ++ y₁ ++ z) = checksumGo a 1 (t ++ y₂ ++ z)
    simp only [List.append_assoc, checksumGo_append]
    rw [checksumGo_const32 _ _ y₁ (by omega) (by omega),
      checksumGo_const32 _ _ y₂ (by omega) (by omega), hy₁, hy₂]

theorem checksumGo_le (acc i : Nat) (l : Bytes) (h : ∀ x ∈ l, x < 256) :
    checksumGo acc i l ≤ acc + 255 * l.length := by
  induction l generalizing acc i with
  | nil => simp [checksumGo]
  | cons b t ih =>
    show checksumGo (checksumStep acc i b) (i + 1) t ≤ _
    have hb : b < 256 := h b (by simp)
    have hstep : checksumStep acc i b ≤ acc + 255 := by
      unfold checksumStep
      split <;> omega
    calc checksumGo (checksumStep acc i b) (i + 1) t
        ≤ checksumStep acc i b + 255 * t.length :=
          ih _ _ (fun x hx => h x (by simp [hx]))
      _ ≤ acc + 255 + 255 * t.length := by omega
      _ ≤ acc + 255 * (b :: t).length := by
          simp [List.length_cons]
          ring_nf
          omega

theorem calculateChecksum_lt (B : Bytes) (h : ∀ x ∈ B, x < 256)
    (hlen : B.length ≤ 512) : calculateChecksum B < 8 ^ 7 := by
  cases B with
  | nil => simp [calculateChecksum]
  | cons b t =>
    have hb : b < 256 := h b (by simp)
    have := checksumGo_le b 1 t (fun x hx => h x (by simp [hx]))
    have ht : t.length ≤ 511 := by simp at hlen; omega
    show checksumGo b 1 t < 8 ^ 7
    calc checksumGo b 1 t ≤ b + 255 * t.length := this
      _ ≤ 255 + 255 * 511 := by
          have : 255 * t.length ≤ 255 * 511 := Nat.mul_le_mul_left _ ht
          omega
      _ < 8 ^ 7 := by norm_num

/-! ## Octal strings -/

theorem toDigitsLE_all_lt (b fuel n : Nat) (hb : 0 < b) :
    ∀ d ∈ toDigitsLE b fuel n, d < b := by
  induction fuel generalizing n with
  | zero => simp [toDigitsLE]
  | succ f ih =>
    cases n with
    | zero => simp [toDigitsLE]
    | succ m =>
      intro d hd
      simp only [toDigitsLE, List.mem_cons] at hd
      rcases hd with rfl | hd
      · exact Nat.mod_lt _ hb
      · exact ih _ d hd

theorem toOctalString_all (n : Nat) :
    ∀ c ∈ toOctalString n, 48 ≤ c ∧ c ≤ 55 := by
  unfold toOctalString
  split
  · simp
  · intro c hc
    simp only [List.mem_map, List.mem_reverse] at hc
    obtain ⟨d, hd, rfl⟩ := hc
    have := toDigitsLE_all_lt 8 n n (by omega) d hd
    omega

theorem toDigitsLE_length_le (b : Nat) (hb : 2 ≤ b) (fuel n k : Nat)
    (hn : n < b ^ k) (hfuel : n ≤ fuel) :
    (toDigitsLE b fuel n).length ≤ k := by
  induction fuel generalizing n k with
  | zero => simp [toDigitsLE]
  | succ f ih =>
    cases n with
    | zero => simp [toDigitsLE]
    | succ m =>
      cases k with
      | zero =>
        simp at hn
      | succ j =>
        have hdiv : (m + 1) / b < b ^ j := by
          apply Nat.div_lt_of_lt_mul
          calc m + 1 < b ^ (j + 1) := hn
            _ = b * b ^ j := by ring
        have hfuel2 : (m + 1) / b ≤ f := by
          have := Nat.div_le_div_right (c := 2) (Nat.le_of_lt_succ
            (Nat.lt_succ_of_le hfuel))
          have h2 : (m + 1) / b ≤ (m + 1) / 2 :=
            Nat.div_le_div_left hb (by omega)
          have h3 : (m + 1) / 2 ≤ m := by omega
          omega
        simp only [toDigitsLE, List.length_cons]
        have := ih ((m + 1) / b) j hdiv hfuel2
        omega

theorem toOctalString_length_le (n k : Nat) (h1 : 1 ≤ k) (hn : n < 8 ^ k) :
    (toOctalString n).length ≤ k := by
  unfold toOctalString
  split
  · simpa
  · simp only [List.length_map, List.length_reverse]
    exact toDigitsLE_length_le 8 (by omega) n n k hn le_rfl

theorem map_mod256_eq_self (l : Bytes) (h : ∀ x ∈ l, x < 256) :
    l.map (· % 256) = l := by
  conv_rhs => rw [show l = l.map id from (List.map_id l).symm]
  apply List.map_congr_left
  intro x hx
  simp [Nat.mod_eq_of_lt (h x hx)]

theorem padNum_length (c len : Nat) (hc : (toOctalString c).length ≤ len - 1) :
    (padNum c len [0]).length = len ∨ len = 0 := by
  rcases Nat.eq_zero_or_pos len with rfl | hpos
  · right
    rfl
  · left
    simp only [padNum, padStartL, List.length_append, List.length_replicate,
      List.length_cons, List.length_nil]
    omega

theorem padNum_all_lt (c len : Nat) : ∀ x ∈ padNum c len [0], x < 256 := by
  intro x hx
  simp only [padNum, padStartL, List.mem_append, List.mem_cons,
    List.mem_replicate] at hx
  rcases hx with (hx | hx) | hx | hx
  · omega
  · have := toOctalString_all c x hx
    omega
  · omega
  · simp at hx

/-! ## Generator inversion lemmas -/

theorem generateHeader_ok {p : Bytes} {t : FType} {st : FileStat} {B : Bytes}
    (h : generateHeader p t st = .ok B) :
    B = writeChecksum (headerCore p t st)
      (calculateChecksum (headerCore p t st)) := by
  unfold generateHeader at h
  split_ifs at h
  exact (Except.ok.inj h).symm

theorem generateHeader_length {p : Bytes} {t : FType} {st : FileStat}
    {B : Bytes} (h : generateHeader p t st = .ok B) :
    B.length = blockSize := by
  rw [generateHeader_ok h]
  simp

theorem generateFile_header {g : Generator} {p : Bytes} {st : FileStat}
    {B : Bytes} {g' : Generator} (h : generateFile g p st = .ok (B, g')) :
    generateHeader p .file st = .ok B := by
  unfold generateFile at h
  split_ifs at h
  cases hs : st.size with
  | none =>
    rw [hs] at h
    simp at h
  | some n =>
    rw [hs] at h
    cases hh : generateHeader p .file st with
    | error e =>
      rw [hh] at h
      simp [Bind.bind, Except.bind] at h
    | ok blk =>
      rw [hh] at h
      simp only [Bind.bind, Except.bind] at h
      split_ifs at h <;> simp_all

theorem generateDirectory_header {g : Generator} {p : Bytes}
    {st : Option FileStat} {B : Bytes} {g' : Generator}
    (h : generateDirectory g p st = .ok (B, g')) :
    generateHeader p .directory { st.getD {} with size := some 0 } = .ok B := by
  unfold generateDirectory at h
  split_ifs at h
  cases hh : generateHeader p .directory { st.getD {} with size := some 0 } with
  | error e =>
    rw [hh] at h
    simp [Bind.bind, Except.bind] at h
  | ok blk =>
    rw [hh] at h
    simp_all [Bind.bind, Except.bind]

theorem generateExtended_header {g : Generator} {n : Nat} {B : Bytes}
    {g' : Generator} (h : generateExtended g n = .ok (B, g')) :
    generateHeader paxHeaderPath .extended { size := some n } = .ok B := by
  unfold generateExtended at h
  split_ifs at h
  cases hh : generateHeader paxHeaderPath .extended { size := some n } with
  | error e =>
    rw [hh] at h
    simp [Bind.bind, Except.bind] at h
  | ok blk =>
    rw [hh] at h
    simp_all [Bind.bind, Except.bind]

/-! ## Field slices of the generated header -/

/-- Splitting a list around a middle slice. -/
theorem split3 (l : Bytes) (a b : Nat) :
    l = l.take a ++ sliceL l a b ++ l.drop (a + b) := by
  have h1 : l = l.take a ++ l.drop a := (List.take_append_drop a l).symm
  have h2 : l.drop a = (l.drop a).take b ++ (l.drop a).drop b :=
    (List.take_append_drop b (l.drop a)).symm
  calc l = l.take a ++ l.drop a := h1
    _ = l.take a ++ ((l.drop a).take b ++ (l.drop a).drop b) := by rw [← h2]
    _ = l.take a ++ sliceL l a b ++ l.drop (a + b) := by
        rw [List.drop_drop]
        simp [sliceL, List.append_assoc, Nat.add_comm]

/-- The seven stat-field writes above the path write do not touch the
name field. -/
theorem slice_core_name (p : Bytes) (t : FType) (st : FileStat) :
    sliceL (headerCore p t st) 0 100 =
      sliceL (writeFilePath (writeFileType (writeUstarMagic
        (List.replicate blockSize 0)) t) (dirAdjustPath t p)) 0 100 := by
  unfold headerCore writeFileMtime writeFileSize writeOwnerGroupName
    writeOwnerUserName writeOwnerGid writeOwnerUid writeFileMode
  rw [sliceL_wbta_disjoint _ _ _ _ _ _
    (by simp only [wbta_length, writeFilePath_length, writeFileType_length,
      writeUstarMagic_length, List.length_replicate]; decide) (by decide)]
  rw [sliceL_wbta_disjoint _ _ _ _ _ _
    (by simp only [wbta_length, writeFilePath_length, writeFileType_length,
      writeUstarMagic_length, List.length_replicate]; decide) (by decide)]
  rw [sliceL_wbta_disjoint _ _ _ _ _ _
    (by simp only [wbta_length, writeFilePath_length, writeFileType_length,
      writeUstarMagic_length, List.length_replicate]; decide) (by decide)]
  rw [sliceL_wbta_disjoint _ _ _ _ _ _
    (by simp only [wbta_length, writeFilePath_length, writeFileType_length,
      writeUstarMagic_length, List.length_replicate]; decide) (by decide)]
  rw [sliceL_wbta_disjoint _ _ _ _ _ _
    (by simp only [wbta_length, writeFilePath_length, writeFileType_length,
      writeUstarMagic_length, List.length_replicate]; decide) (by decide)]
  rw [sliceL_wbta_disjoint _ _ _ _ _ _
    (by simp only [wbta_length, writeFilePath_length, writeFileType_length,
      writeUstarMagic_length, List.length_replicate]; decide) (by decide)]
  rw [sliceL_wbta_disjoint _ _ _ _ _ _
    (by simp only [wbta_length, writeFilePath_length, writeFileType_length,
      writeUstarMagic_length, List.length_replicate]; decide) (by decide)]

/-- The seven stat-field writes above the path write do not touch the
field at offset 345. -/
theorem slice_core_prefixF (p : Bytes) (t : FType) (st : FileStat) :
    sliceL (headerCore p t st) 345 155 =
      sliceL (writeFilePath (writeFileType (writeUstarMagic
        (List.replicate blockSize 0)) t) (dirAdjustPath t p)) 345 155 := by
  unfold headerCore writeFileMtime writeFileSize writeOwnerGroupName
    writeOwnerUserName writeOwnerGid writeOwnerUid writeFileMode
  rw [sliceL_wbta_disjoint _ _ _ _ _ _
    (by simp only [wbta_length, writeFilePath_length, writeFileType_length,
      writeUstarMagic_length, List.length_replicate]; decide) (by decide)]
  rw [sliceL_wbta_disjoint _ _ _ _ _ _
    (by simp only [wbta_length, writeFilePath_length, writeFileType_length,
      writeUstarMagic_length, List.length_replicate]; decide) (by decide)]
  rw [sliceL_wbta_disjoint _ _ _ _ _ _
    (by simp only [wbta_length, writeFilePath_length, writeFileType_length,
      writeUstarMagic_length, List.length_replicate]; decide) (by decide)]
  rw [sliceL_wbta_disjoint _ _ _ _ _ _
    (by simp only [wbta_length, writeFilePath_length, writeFileType_length,
      writeUstarMagic_length, List.length_replicate]; decide) (by decide)]
  rw [sliceL_wbta_disjoint _ _ _ _ _ _
    (by simp only [wbta_length, writeFilePath_length, writeFileType_length,
      writeUstarMagic_length, List.length_replicate]; decide) (by decide)]
  rw [sliceL_wbta_disjoint _ _ _ _ _ _
    (by simp only [wbta_length, writeFilePath_length, writeFileType_length,
      writeUstarMagic_length, List.length_replicate]; decide) (by decide)]
  rw [sliceL_wbta_disjoint _ _ _ _ _ _
    (by simp only [wbta_length, writeFilePath_length, writeFileType_length,
      writeUstarMagic_length, List.length_replicate]; decide) (by decide)]

/-- Below the path write, the field at offset 345 of the type/magic
layer is still zero. -/
theorem slice_base_345 (t : FType) :
    sliceL (writeFileType (writeUstarMagic (List.replicate blockSize 0)) t)
      345 155 = List.replicate 155 0 := by
  unfold writeFileType writeUstarMagic
  rw [sliceL_wbta_disjoint _ _ _ _ _ _
    (by simp only [wbta_length, List.length_replicate]; decide) (by decide)]
  rw [sliceL_wbta_disjoint _ _ _ _ _ _
    (by simp only [wbta_length, List.length_replicate]; decide) (by decide)]
  rw [sliceL_wbta_disjoint _ _ _ _ _ _
    (by simp only [List.length_replicate]; decide) (by decide)]
  rw [sliceL_replicate]
  decide

theorem slice_base_445 (t : FType) :
    sliceL (writeFileType (writeUstarMagic (List.replicate blockSize 0)) t)
      445 55 = List.replicate 55 0 := by
  unfold writeFileType writeUstarMagic
  rw [sliceL_wbta_disjoint _ _ _ _ _ _
    (by simp only [wbta_length, List.length_replicate]; decide) (by decide)]
  rw [sliceL_wbta_disjoint _ _ _ _ _ _
    (by simp only [wbta_length, List.length_replicate]; decide) (by decide)]
  rw [sliceL_wbta_disjoint _ _ _ _ _ _
    (by simp only [List.length_replicate]; decide) (by decide)]
  rw [sliceL_replicate]
  decide

/-- Name field for a short path (the `filePath.length < 100` branch):
it holds the path NUL-padded to 100 bytes. -/
theorem slice_path_name_low (L q : Bytes) (hq : q.length < 100)
    (hL : L.length = blockSize) :
    sliceL (writeFilePath L q) 0 100 =
      (padEndL (q.take 100) 100 0).map (· % 256) := by
  simp only [writeFilePath, fileNameOff, fileNameSize, prefixFieldOff,
    prefixFieldSize]
  rw [if_pos hq]
  rw [sliceL_wbta_self _ _ _ _ (by rw [hL]; decide)
    (by simp only [padEndL, List.length_append, List.length_replicate,
      List.length_take]; omega)]
  congr 1
  apply List.take_of_length_le
  simp only [padEndL, List.length_append, List.length_replicate,
    List.length_take]
  omega

/-- For a short path the 155-byte field at offset 345 is untouched. -/
theorem slice_path_prefix_low (L q : Bytes) (hq : q.length < 100)
    (hL : L.length = blockSize) :
    sliceL (writeFilePath L q) 345 155 = sliceL L 345 155 := by
  simp only [writeFilePath, fileNameOff, fileNameSize, prefixFieldOff,
    prefixFieldSize]
  rw [if_pos hq]
  rw [sliceL_wbta_disjoint _ _ _ _ _ _ (by rw [hL]; decide) (by decide)]

/-- Name field for a long path (the split branch): the first 100 bytes
of characters 100..255. -/
theorem slice_path_name_high (L q : Bytes) (hq : ¬ q.length < 100)
    (hL : L.length = blockSize) :
    sliceL (writeFilePath L q) 0 100 =
      ((padEndL ((q.drop 100).take 155) 155 0).take 100).map (· % 256) := by
  simp only [writeFilePath, fileNameOff, fileNameSize, prefixFieldOff,
    prefixFieldSize]
  rw [if_neg hq]
  rw [sliceL_wbta_disjoint _ _ _ _ _ _
    (by simp only [wbta_length]; rw [hL]; decide) (by decide)]
  rw [sliceL_wbta_self _ _ _ _ (by rw [hL]; decide)
    (by simp only [padEndL, List.length_append, List.length_replicate,
      List.length_take]; omega)]

/-- Field at offset 345 for a long path: the first 100 path bytes,
then 55 untouched bytes. -/
theorem slice_path_prefix_high (L q : Bytes) (hq : ¬ q.length < 100)
    (hL : L.length = blockSize) :
    sliceL (writeFilePath L q) 345 155 =
      (padEndL (q.take 100) 100 0).map (· % 256) ++ sliceL L 445 55 := by
  simp only [writeFilePath, fileNameOff, fileNameSize, prefixFieldOff,
    prefixFieldSize]
  rw [if_neg hq]
  have hlow : (padEndL (q.take 100) 100 0).length = 100 := by
    simp only [padEndL, List.length_append, List.length_replicate,
      List.length_take]
    omega
  rw [sliceL_wbta_short _ _ _ _
    (by simp only [wbta_length]; rw [hL]; decide) (by rw [hlow]; decide)]
  rw [hlow]
  rw [sliceL_wbta_disjoint _ _ _ _ _ _ (by rw [hL]; decide) (by decide)]

/-! ## The checksum field of the final block -/

theorem padNum_chk_length (c : Nat) (hc : c < 8 ^ 7) :
    (padNum c checksumSize [0]).length = 8 := by
  have := toOctalString_length_le c 7 (by omega) hc
  simp only [padNum, padStartL, checksumSize, List.length_append,
    List.length_replicate, List.length_cons, List.length_nil]
  omega

theorem padNum_chk_length_ge (c : Nat) :
    8 ≤ (padNum c checksumSize [0]).length := by
  simp only [padNum, padStartL, checksumSize, List.length_append,
    List.length_replicate, List.length_cons, List.length_nil]
  omega

/-- The checksum field of `writeChecksum h c` holds
`pad(c, 8, '0', '\0')` whenever the checksum has at most 7 octal
digits. -/
theorem slice_writeChecksum_self (h : Bytes) (c : Nat)
    (hlen : h.length = blockSize) (hc : c < 8 ^ 7) :
    sliceL (writeChecksum h c) checksumOff checksumSize =
      padNum c checksumSize [0] := by
  unfold writeChecksum
  rw [sliceL_wbta_self _ _ _ _ (by rw [hlen]; decide)
    (by rw [padNum_chk_length c hc]; decide)]
  rw [List.take_of_length_le (by rw [padNum_chk_length c hc]; decide)]
  exact map_mod256_eq_self _ (padNum_all_lt c checksumSize)

/-- Writing the checksum does not change the checksum of the block. -/
theorem calculateChecksum_writeChecksum (h : Bytes) (c : Nat)
    (hlen : h.length = blockSize) :
    calculateChecksum (writeChecksum h c) = calculateChecksum h := by
  have hsplit : writeChecksum h c =
      h.take 148 ++ ((padNum c checksumSize [0]).take 8).map (· % 256) ++
        h.drop 156 := by
    unfold writeChecksum
    have := wbta_eq_trunc h (padNum c checksumSize [0]) checksumOff
      checksumSize (by rw [hlen]; decide) (padNum_chk_length_ge c)
    simpa [checksumOff, checksumSize] using this
  rw [hsplit]
  conv_rhs => rw [split3 h 148 8]
  apply calculateChecksum_set_chk
  · simp only [List.length_take]
    rw [hlen]
    decide
  · simp only [List.length_map, List.length_take]
    have := padNum_chk_length_ge c
    omega
  · exact sliceL_length h 148 8 (by rw [hlen]; decide)

/-- A write of the checksum does not touch other fields. -/
theorem slice_writeChecksum_disjoint (h : Bytes) (c : Nat)
    (off' len' : Nat) (hlen : h.length = blockSize)
    (hd : off' + len' ≤ 148 ∨ 156 ≤ off') :
    sliceL (writeChecksum h c) off' len' = sliceL h off' len' := by
  unfold writeChecksum
  apply sliceL_wbta_disjoint _ _ _ _ _ _ (by rw [hlen]; decide)
  simpa [checksumOff, checksumSize] using hd

theorem padEndL_all_lt (q : Bytes) (n : Nat) (h : ∀ c ∈ q, c < 256) :
    ∀ c ∈ padEndL q n 0, c < 256 := by
  intro c hc
  simp only [padEndL, List.mem_append, List.mem_replicate] at hc
  rcases hc with hc | hc
  · exact h c hc
  · omega

theorem padEndL_map_mod256 (q : Bytes) (n : Nat) (h : ∀ c ∈ q, c < 256) :
    (padEndL q n 0).map (· % 256) = padEndL q n 0 :=
  map_mod256_eq_self _ (padEndL_all_lt q n h)

/-! ## Decoding the stored path of a generated header -/

theorem takeWhile_ne_append_zeros (x : Bytes) (k : Nat)
    (hx : ∀ c ∈ x, c ≠ 0) :
    (x ++ List.replicate k 0).takeWhile (· ≠ (0 : Nat)) = x := by
  have h1 : x.takeWhile (· ≠ (0 : Nat)) = x :=
    List.takeWhile_eq_self_iff.mpr (by
      intro a ha
      simpa using hx a ha)
  rw [List.takeWhile_append, if_pos (by rw [h1])]
  have h2 : (List.replicate k (0 : Nat)).takeWhile (· ≠ (0 : Nat)) = [] := by
    cases k with
    | zero => rfl
    | succ m => simp [List.replicate_succ]
  rw [h2, List.append_nil]

theorem padOptNum_length_ge (v : Option Nat) :
    12 ≤ (padOptNum v 12 [0]).length := by
  cases v with
  | none =>
    simp only [padOptNum, padEmpty, padStartL, List.length_append,
      List.length_replicate, List.length_nil, List.length_cons]
    omega
  | some n =>
    simp only [padOptNum, padNum, padStartL, List.length_append,
      List.length_replicate, List.length_cons, List.length_nil]
    omega

/-- The size field of the pre-checksum block: the written (possibly
truncated) `pad(size ?? '', 12, '0', '\0')`. -/
theorem slice_core_size (p : Bytes) (t : FType) (st : FileStat) :
    sliceL (headerCore p t st) 124 12 =
      ((padOptNum st.size fileSizeSize [0]).take 12).map (· % 256) := by
  unfold headerCore writeFileMtime writeFileSize
  simp only [fileSizeOff, fileMtimeOff, fileMtimeSize]
  rw [sliceL_wbta_disjoint _ _ _ _ _ _
    (by simp only [wbta_length, writeOwnerGroupName_length,
      writeOwnerUserName_length, writeOwnerGid_length, writeOwnerUid_length,
      writeFileMode_length, writeFilePath_length, writeFileType_length,
      writeUstarMagic_length, List.length_replicate]; decide) (by decide)]
  rw [show (fileSizeSize : Nat) = 12 from rfl]
  rw [sliceL_wbta_self _ _ _ _
    (by simp only [wbta_length, writeOwnerGroupName_length,
      writeOwnerUserName_length, writeOwnerGid_length, writeOwnerUid_length,
      writeFileMode_length, writeFilePath_length, writeFileType_length,
      writeUstarMagic_length, List.length_replicate]; decide)
    (padOptNum_length_ge st.size)]


/-- The full decoded path of a successfully generated header, for
stored paths of at most 200 bytes of non-NUL byte values. -/
theorem decodeFilePath_generated (p : Bytes) (t : FType) (st : FileStat)
    (B : Bytes) (hB : generateHeader p t st = .ok B)
    (hq200 : (dirAdjustPath t p).length ≤ 200)
    (hbytes : ∀ c ∈ dirAdjustPath t p, 0 < c ∧ c < 256) :
    decodeFilePath B = dirAdjustPath t p := by
  have hBval := generateHeader_ok hB
  have hlen : (headerCore p t st).length = blockSize := headerCore_length ..
  have hLayer : (writeFileType (writeUstarMagic
      (List.replicate blockSize 0)) t).length = blockSize := by
    simp
  have hlt : ∀ c ∈ dirAdjustPath t p, c < 256 := fun c hc => (hbytes c hc).2
  have hne : ∀ c ∈ dirAdjustPath t p, c ≠ 0 := fun c hc => by
    have := (hbytes c hc).1
    omega
  unfold decodeFilePath extractString extractBytesField
  simp only [fileNameOff, fileNameSize, prefixFieldOff, prefixFieldSize]
  rw [hBval]
  rw [slice_writeChecksum_disjoint _ _ _ _ hlen (by decide),
    slice_writeChecksum_disjoint _ _ _ _ hlen (by decide)]
  rw [slice_core_name, slice_core_prefixF]
  by_cases hq : (dirAdjustPath t p).length < 100
  · rw [slice_path_name_low _ _ hq hLayer,
      slice_path_prefix_low _ _ hq hLayer, slice_base_345]
    rw [List.take_of_length_le (by omega), padEndL_map_mod256 _ _ hlt]
    have hpre : (List.replicate 155 (0 : Nat)).takeWhile (· ≠ (0 : Nat)) =
        [] := by
      simp [List.replicate_succ]
    have hsuf : (padEndL (dirAdjustPath t p) 100 0).takeWhile
        (· ≠ (0 : Nat)) = dirAdjustPath t p := by
      unfold padEndL
      exact takeWhile_ne_append_zeros _ _ hne
    rw [hpre, hsuf]
    simp
  · rw [slice_path_name_high _ _ hq hLayer,
      slice_path_prefix_high _ _ hq hLayer, slice_base_445]
    have hdl : ((dirAdjustPath t p).drop 100).length =
        (dirAdjustPath t p).length - 100 := by
      simp
    have htake155 : ((dirAdjustPath t p).drop 100).take 155 =
        (dirAdjustPath t p).drop 100 :=
      List.take_of_length_le (by omega)
    rw [htake155]
    have hname : (padEndL ((dirAdjustPath t p).drop 100) 155 0).take 100 =
        (dirAdjustPath t p).drop 100 ++
          List.replicate (100 - ((dirAdjustPath t p).length - 100)) 0 := by
      unfold padEndL
      rw [List.take_append_eq_append_take]
      rw [List.take_of_length_le (by omega)]
      rw [List.take_replicate]
      have harith : min (100 - ((dirAdjustPath t p).drop 100).length)
          (155 - ((dirAdjustPath t p).drop 100).length) =
          100 - ((dirAdjustPath t p).length - 100) := by
        simp only [List.length_drop]
        omega
      rw [harith]
    rw [hname]
    have hmapname : ((dirAdjustPath t p).drop 100 ++
        List.replicate (100 - ((dirAdjustPath t p).length - 100)) 0).map
          (· % 256) =
        (dirAdjustPath t p).drop 100 ++
          List.replicate (100 - ((dirAdjustPath t p).length - 100)) 0 := by
      apply map_mod256_eq_self
      intro x hx
      rcases List.mem_append.mp hx with hx | hx
      · exact hlt x (List.mem_of_mem_drop hx)
      · rw [List.eq_of_mem_replicate hx]
        omega
    rw [hmapname]
    have hpfx : padEndL ((dirAdjustPath t p).take 100) 100 0 =
        (dirAdjustPath t p).take 100 := by
      unfold padEndL
      rw [show 100 - ((dirAdjustPath t p).take 100).length = 0 by
        simp only [List.length_take]; omega]
      simp
    rw [hpfx]
    have hmappfx : ((dirAdjustPath t p).take 100).map (· % 256) =
        (dirAdjustPath t p).take 100 := by
      apply map_mod256_eq_self
      intro x hx
      exact hlt x (List.mem_of_mem_take hx)
    rw [hmappfx]
    have hsuf : ((dirAdjustPath t p).drop 100 ++
        List.replicate (100 - ((dirAdjustPath t p).length - 100)) 0).takeWhile
          (· ≠ (0 : Nat)) = (dirAdjustPath t p).drop 100 :=
      takeWhile_ne_append_zeros _ _
        (fun c hc => hne c (List.mem_of_mem_drop hc))
    have hpre : ((dirAdjustPath t p).take 100 ++
        List.replicate 55 0).takeWhile (· ≠ (0 : Nat)) =
        (dirAdjustPath t p).take 100 :=
      takeWhile_ne_append_zeros _ _
        (fun c hc => hne c (List.mem_of_mem_take hc))
    rw [hsuf, hpre]
    rw [if_pos (by
      intro hemp
      have : ((dirAdjustPath t p).take 100).length = 0 := by rw [hemp]; rfl
      simp only [List.length_take] at this
      omega)]
    exact List.take_append_drop 100 _

/-! ## The parser's data-block run -/

theorem chunk_block_length (x : Bytes) :
    (padEndL (x.take blockSize) blockSize 0).length = blockSize := by
  simp only [padEndL, List.length_append, List.length_replicate,
    List.length_take]
  omega

theorem chunkPadGo_fuel_eq (f : Nat) : ∀ (g : Nat) (x : Bytes),
    x.length ≤ f → x.length ≤ g → chunkPadGo f x = chunkPadGo g x := by
  induction f with
  | zero =>
    intro g x hf _
    have : x = [] := List.eq_nil_of_length_eq_zero (by omega)
    subst this
    cases g <;> rfl
  | succ f ih =>
    intro g x hf hg
    cases x with
    | nil => cases g <;> rfl
    | cons a t =>
      cases g with
      | zero => simp at hg
      | succ g' =>
        show padEndL ((a :: t).take blockSize) blockSize 0 ::
            chunkPadGo f ((a :: t).drop blockSize) = _
        show _ = padEndL ((a :: t).take blockSize) blockSize 0 ::
            chunkPadGo g' ((a :: t).drop blockSize)
        congr 1
        apply ih
        · simp only [List.length_drop, List.length_cons, blockSize]
          simp only [List.length_cons] at hf
          omega
        · simp only [List.length_drop, List.length_cons, blockSize]
          simp only [List.length_cons] at hg
          omega

theorem dataRunGo_fuel_eq (f : Nat) : ∀ (g : Nat) (x : Bytes),
    x.length ≤ f → x.length ≤ g → dataRunGo f x = dataRunGo g x := by
  induction f with
  | zero =>
    intro g x hf _
    have : x = [] := List.eq_nil_of_length_eq_zero (by omega)
    subst this
    cases g <;> rfl
  | succ f ih =>
    intro g x hf hg
    cases x with
    | nil => cases g <;> rfl
    | cons a t =>
      cases g with
      | zero => simp at hg
      | succ g' =>
        show (if (a :: t).length ≤ blockSize then [(a :: t, true)]
          else ((a :: t).take blockSize, false) ::
            dataRunGo f ((a :: t).drop blockSize)) = _
        show _ = (if (a :: t).length ≤ blockSize then [(a :: t, true)]
          else ((a :: t).take blockSize, false) ::
            dataRunGo g' ((a :: t).drop blockSize))
        split
        · rfl
        · congr 1
          apply ih
          · simp only [List.length_drop, List.length_cons, blockSize]
            simp only [List.length_cons] at hf
            omega
          · simp only [List.length_drop, List.length_cons, blockSize]
            simp only [List.length_cons] at hg
            omega

theorem dataRunGo_ne_nil (f : Nat) (x : Bytes) (hx : x ≠ [])
    (hf : x.length ≤ f) : dataRunGo f x ≠ [] := by
  cases f with
  | zero =>
    cases x with
    | nil => exact absurd rfl hx
    | cons a t => simp at hf
  | succ f =>
    cases x with
    | nil => exact absurd rfl hx
    | cons a t =>
      show (if (a :: t).length ≤ blockSize then [(a :: t, true)]
        else ((a :: t).take blockSize, false) ::
          dataRunGo f ((a :: t).drop blockSize)) ≠ []
      split <;> simp

theorem dataRun_flatten (f : Nat) : ∀ x : Bytes, x.length ≤ f →
    ((dataRunGo f x).map Prod.fst).flatten = x := by
  induction f with
  | zero =>
    intro x hf
    have : x = [] := List.eq_nil_of_length_eq_zero (by omega)
    subst this
    rfl
  | succ f ih =>
    intro x hf
    cases x with
    | nil => rfl
    | cons a t =>
      show (((if (a :: t).length ≤ blockSize then [(a :: t, true)]
        else ((a :: t).take blockSize, false) ::
          dataRunGo f ((a :: t).drop blockSize))).map Prod.fst).flatten =
        a :: t
      split
      · simp
      · simp only [List.map_cons, List.flatten_cons]
        rw [ih ((a :: t).drop blockSize) (by
          simp only [List.length_drop, List.length_cons, blockSize]
          simp only [List.length_cons] at hf
          omega)]
        exact List.take_append_drop _ _

theorem dataRun_length_eq (f : Nat) : ∀ x : Bytes, x ≠ [] → x.length ≤ f →
    (dataRunGo f x).length = (x.length + 511) / 512 := by
  induction f with
  | zero =>
    intro x hx hf
    cases x with
    | nil => exact absurd rfl hx
    | cons a t => simp at hf
  | succ f ih =>
    intro x hx hf
    cases x with
    | nil => exact absurd rfl hx
    | cons a t =>
      show (if (a :: t).length ≤ blockSize then [(a :: t, true)]
        else ((a :: t).take blockSize, false) ::
          dataRunGo f ((a :: t).drop blockSize)).length = _
      split
      · rename_i hle
        simp only [List.length_singleton]
        simp only [blockSize] at hle
        simp only [List.length_cons] at hle ⊢
        omega
      · rename_i hgt
        simp only [blockSize] at hgt
        simp only [List.length_cons] at hgt ⊢
        rw [ih ((a :: t).drop blockSize)
          (by
            intro hnil
            have := congrArg List.length hnil
            simp only [List.length_drop, List.length_cons, List.length_nil,
              blockSize] at this
            omega)
          (by
            simp only [List.length_drop, List.length_cons, blockSize]
            simp only [List.length_cons] at hf
            omega)]
        simp only [List.length_drop, List.length_cons, blockSize]
        omega

theorem dataRun_dropLast (f : Nat) : ∀ x : Bytes, x.length ≤ f →
    ∀ de ∈ (dataRunGo f x).dropLast, de.1.length = 512 ∧ de.2 = false := by
  induction f with
  | zero =>
    intro x hf
    have : x = [] := List.eq_nil_of_length_eq_zero (by omega)
    subst this
    simp [dataRunGo]
  | succ f ih =>
    intro x hf de hde
    cases x with
    | nil => simp [dataRunGo] at hde
    | cons a t =>
      have hx : dataRunGo (f + 1) (a :: t) =
          (if (a :: t).length ≤ blockSize then [(a :: t, true)]
          else ((a :: t).take blockSize, false) ::
            dataRunGo f ((a :: t).drop blockSize)) := rfl
      rw [hx] at hde
      split at hde
      · simp at hde
      · rename_i hgt
        have hrest : dataRunGo f ((a :: t).drop blockSize) ≠ [] := by
          apply dataRunGo_ne_nil
          · intro hnil
            have := congrArg List.length hnil
            simp only [List.length_drop, List.length_cons, List.length_nil,
              blockSize] at this
            simp only [List.length_cons, blockSize] at hgt
            omega
          · simp only [List.length_drop, List.length_cons, blockSize]
            simp only [List.length_cons] at hf
            omega
        rw [List.dropLast_cons_of_ne_nil hrest] at hde
        rcases List.mem_cons.mp hde with rfl | hde
        · constructor
          · simp only [List.length_take, List.length_cons, blockSize]
            simp only [List.length_cons, blockSize] at hgt
            omega
          · rfl
        · exact ih ((a :: t).drop blockSize) (by
            simp only [List.length_drop, List.length_cons, blockSize]
            simp only [List.length_cons] at hf
            omega) de hde

theorem dataRun_getLast (f : Nat) : ∀ x : Bytes, x ≠ [] → x.length ≤ f →
    ∃ d : Bytes, (dataRunGo f x).getLast? = some (d, true) ∧
      d.length = if x.length % 512 = 0 then 512 else x.length % 512 := by
  induction f with
  | zero =>
    intro x hx hf
    cases x with
    | nil => exact absurd rfl hx
    | cons a t => simp at hf
  | succ f ih =>
    intro x hx hf
    cases x with
    | nil => exact absurd rfl hx
    | cons a t =>
      have hx2 : dataRunGo (f + 1) (a :: t) =
          (if (a :: t).length ≤ blockSize then [(a :: t, true)]
          else ((a :: t).take blockSize, false) ::
            dataRunGo f ((a :: t).drop blockSize)) := rfl
      rw [hx2]
      split
      · rename_i hle
        refine ⟨a :: t, by simp, ?_⟩
        simp only [List.length_cons, blockSize] at hle ⊢
        split <;> omega
      · rename_i hgt
        have hdne : (a :: t).drop blockSize ≠ [] := by
          intro hnil
          have := congrArg List.length hnil
          simp only [List.length_drop, List.length_cons, List.length_nil,
            blockSize] at this
          simp only [List.length_cons, blockSize] at hgt
          omega
        have hrest : dataRunGo f ((a :: t).drop blockSize) ≠ [] :=
          dataRunGo_ne_nil f _ hdne (by
            simp only [List.length_drop, List.length_cons, blockSize]
            simp only [List.length_cons] at hf
            omega)
        obtain ⟨d, hd1, hd2⟩ := ih ((a :: t).drop blockSize) hdne (by
          simp only [List.length_drop, List.length_cons, blockSize]
          simp only [List.length_cons] at hf
          omega)
        refine ⟨d, ?_, ?_⟩
        · cases hrl : dataRunGo f ((a :: t).drop blockSize) with
          | nil => exact absurd hrl hrest
          | cons r rs =>
            rw [hrl] at hd1
            rw [List.getLast?_cons_cons]
            exact hd1
        · rw [hd2]
          simp only [List.length_drop, List.length_cons, blockSize]
          simp only [List.length_cons, blockSize] at hgt
          have h1 : (t.length + 1 - 512) % 512 = (t.length + 1) % 512 := by
            omega
          rw [h1]

/-- Feeding the zero-padded blocks of a nonempty content into a parser
sitting in the data state with `remaining` equal to the content length
returns exactly the expected data-token run and leaves the parser back
in the header-expecting state. -/
theorem feed_data_run (f : Nat) : ∀ x : Bytes, x ≠ [] → x.length ≤ f →
    ∃ r : JsNum,
      feedAll { state := .data, remaining := some (x.length : Int) }
          (chunkPadGo f x) =
        ({ state := .header, remaining := r },
          (dataRunGo f x).map (fun de => .ok (some (.dataTok de.1 de.2)))) := by
  induction f with
  | zero =>
    intro x hx hf
    cases x with
    | nil => exact absurd rfl hx
    | cons a t => simp at hf
  | succ f ih =>
    intro x hx hf
    cases x with
    | nil => exact absurd rfl hx
    | cons a t =>
      have hblen : (padEndL ((a :: t).take blockSize) blockSize 0).length =
          blockSize := chunk_block_length (a :: t)
      have hcond :
          ¬ ((padEndL ((a :: t).take blockSize) blockSize 0).length ≠
            blockSize) := by
        rw [hblen]
        simp
      have hpw : parserWrite
          { state := .data, remaining := some ((a :: t).length : Int) }
          (padEndL ((a :: t).take blockSize) blockSize 0) =
          ({ state :=
              if jsLe (jsSub (some ((a :: t).length : Int)) 512) 0
              then PState.header else PState.data
             remaining := jsSub (some ((a :: t).length : Int)) 512 },
            .ok (some (parseData
              (padEndL ((a :: t).take blockSize) blockSize 0)
              (some ((a :: t).length : Int))))) := by
        unfold parserWrite
        rw [if_neg hcond]
      have hchunk : chunkPadGo (f + 1) (a :: t) =
          padEndL ((a :: t).take blockSize) blockSize 0 ::
            chunkPadGo f ((a :: t).drop blockSize) := rfl
      have hrun : dataRunGo (f + 1) (a :: t) =
          (if (a :: t).length ≤ blockSize then [(a :: t, true)]
          else ((a :: t).take blockSize, false) ::
            dataRunGo f ((a :: t).drop blockSize)) := rfl
      rw [hchunk, hrun]
      simp only [feedAll]
      rw [hpw]
      by_cases hle : (a :: t).length ≤ blockSize
      · have hdrop : (a :: t).drop blockSize = [] :=
          List.eq_nil_of_length_eq_zero (by
            simp only [List.length_drop, List.length_cons, blockSize]
            simp only [List.length_cons, blockSize] at hle
            omega)
        have hcg : chunkPadGo f ((a :: t).drop blockSize) = [] := by
          rw [hdrop]
          cases f <;> rfl
        have hst : jsLe (jsSub (some ((a :: t).length : Int)) 512) 0 =
            true := by
          simp only [jsSub, Option.map_some', jsLe, decide_eq_true_eq,
            List.length_cons]
          simp only [List.length_cons, blockSize] at hle
          omega
        have hgtf : jsGt (some ((a :: t).length : Int)) 512 = false := by
          simp only [jsGt, decide_eq_false_iff_not, not_lt,
            List.length_cons]
          simp only [List.length_cons, blockSize] at hle
          omega
        have hbeq : padEndL ((a :: t).take blockSize) blockSize 0 =
            (a :: t) ++ List.replicate (blockSize - (a :: t).length) 0 := by
          simp only [padEndL]
          rw [List.take_of_length_le (by
            simp only [List.length_cons, blockSize] at hle ⊢
            omega)]
        have htok : parseData
            (padEndL ((a :: t).take blockSize) blockSize 0)
            (some ((a :: t).length : Int)) =
            .dataTok (a :: t) true := by
          simp only [parseData, hgtf, Bool.false_eq_true, if_false,
            extractBytesData]
          rw [if_neg (by omega)]
          rw [Int.toNat_natCast, hbeq, List.take_left]
        rw [hcg, hst, htok]
        refine ⟨jsSub (some ((a :: t).length : Int)) 512, ?_⟩
        rw [if_pos hle]
        simp only [List.map_cons, List.map_nil, if_true, feedAll]
      · have hdne : (a :: t).drop blockSize ≠ [] := by
          intro hnil
          have := congrArg List.length hnil
          simp only [List.length_drop, List.length_cons, List.length_nil,
            blockSize] at this
          simp only [List.length_cons, blockSize] at hle
          omega
        have hst : jsLe (jsSub (some ((a :: t).length : Int)) 512) 0 =
            false := by
          simp only [jsSub, Option.map_some', jsLe, decide_eq_false_iff_not,
            not_le, List.length_cons]
          simp only [List.length_cons, blockSize] at hle
          omega
        have hgtt : jsGt (some ((a :: t).length : Int)) 512 = true := by
          simp only [jsGt, decide_eq_true_eq, List.length_cons]
          simp only [List.length_cons, blockSize] at hle
          omega
        have hbeq : padEndL ((a :: t).take blockSize) blockSize 0 =
            (a :: t).take blockSize := by
          simp only [padEndL, List.length_take, List.length_cons]
          rw [show blockSize - min blockSize (t.length + 1) = 0 by
            simp only [List.length_cons, blockSize] at hle ⊢
            omega]
          simp
        have htok : parseData
            (padEndL ((a :: t).take blockSize) blockSize 0)
            (some ((a :: t).length : Int)) =
            .dataTok ((a :: t).take blockSize) false := by
          simp only [parseData, hgtt, if_true, hbeq]
        have hrem : jsSub (some ((a :: t).length : Int)) 512 =
            some ((((a :: t).drop blockSize).length : Nat) : Int) := by
          simp only [jsSub, Option.map_some', Option.some.injEq,
            List.length_drop, List.length_cons, blockSize]
          simp only [List.length_cons, blockSize] at hle
          omega
        obtain ⟨r, hr⟩ := ih ((a :: t).drop blockSize) hdne (by
          simp only [List.length_drop, List.length_cons, blockSize]
          simp only [List.length_cons] at hf
          omega)
        rw [hst, htok, hrem]
        simp only [Bool.false_eq_true, if_false]
        rw [if_neg hle]
        rw [hr]
        exact ⟨r, rfl⟩

/-! ## Claim C1 -/

/-- C1.  The claim states that for every sequence of entries within the
documented limits (paths up to 255 bytes need no extended header, file
sizes up to 2^33 − 1, …) the generate-then-parse pipeline reproduces
the entries exactly.  The code violates this: `writeFilePath` stores
the first 100 path characters in the 155-byte field at offset 345 and
characters 100..200 in the name field, discarding characters beyond
200.  For the single file entry with path `'a' * 201` (well within the
255-byte limit) and size 0, the pipeline succeeds but returns the path
truncated to `'a' * 200`, so the round trip does not reproduce the
entry. -/
theorem c1_roundtrip_code_bug_eval :
    roundTrip [.fileEnt (List.replicate 201 97) { size := some 0 } []] =
      .ok [.pfile (List.replicate 200 97)
        { size := some 0, mode := some 0, mtime := some 0, uid := some 0,
          gid := some 0, uname := [], gname := [] } []] ∧
    (List.replicate 200 97 : Bytes) ≠ List.replicate 201 97 := by
  constructor
  · decide
  · decide

/-! ## Claim C3 -/

/-- C3.  The claim (and the generator's own error message, which
promises a limit of 8,589,934,591 bytes) says sizes up to 2^33 − 1 are
accepted.  The code compares against `0o7777777 = 2^21 − 1 = 2097151`
instead of `0o77777777777 = 2^33 − 1`, so `generateFile` already
rejects the in-limit size 2097152 with `InvalidStat`, while 2097151 is
still accepted. -/
theorem c3_size_limit_code_bug_eval :
    generateFile genInit [97] { size := some 2097152 } =
      .error .invalidStat ∧
    (2097152 : Nat) ≤ 2 ^ 33 - 1 ∧
    (generateFile genInit [97] { size := some 2097151 }).isOk = true := by
  refine ⟨by decide, by decide, by decide⟩

/-! ## Claim C6 -/

/-- C6.  The claim says that for paths of 101..255 bytes the name field
holds the trailing 100 bytes and the 155-byte field at offset 345 holds
the leading remainder.  The code does the opposite and also truncates:
for the 255-byte path `'a'*100 ++ 'b'*100 ++ 'c'*55` the name field
receives characters 100..200 (`'b'*100`), the field at offset 345
receives the first 100 characters (`'a'*100`), and the trailing 55
characters are lost, so the decoded path is the 200-byte truncation.
This contradicts the code's own layout comment (offset 0 = first 100
bytes, offset 345 = last 155 bytes) and breaks the documented 255-byte
path limit. -/
theorem c6_path_split_code_bug_eval :
    (generateHeader
        (List.replicate 100 97 ++ List.replicate 100 98 ++
          List.replicate 55 99) .file { size := some 0 }).map
      (fun b => (sliceL b fileNameOff fileNameSize,
        sliceL b prefixFieldOff prefixFieldSize, decodeFilePath b)) =
      .ok (List.replicate 100 98,
        List.replicate 100 97 ++ List.replicate 55 0,
        List.replicate 100 97 ++ List.replicate 100 98) ∧
    (List.replicate 100 97 ++ List.replicate 100 98 : Bytes) ≠
      List.replicate 100 97 ++ List.replicate 100 98 ++
        List.replicate 55 99 := by
  refine ⟨by decide, by decide⟩

/-! ## Claim C7 -/

/-- C7.  The claim says every PAX record's declared size equals the
byte length of the complete record line.  `encodeExtendedHeader`
adjusts its initial guess only once by the digit count of the guess, so
when adding the digits crosses a power of ten the declared size is too
small: for key `path` and a 91-byte value the guess is 98, the declared
size is 100, but the line `"100 path=<91 bytes>\n"` is 101 bytes long.
The encoder even truncates the stored record to the declared 100 bytes,
dropping the terminating newline.  This contradicts the code's own
comment defining `<size>` as the total length of the line. -/
theorem c7_pax_size_code_bug_eval :
    paxDeclaredSize paxKeyPath (List.replicate 91 97) = 100 ∧
    (paxLine paxKeyPath (List.replicate 91 97)).length = 101 ∧
    encodeExtendedHeader [(paxKeyPath, List.replicate 91 97)] =
      .ok ((paxLine paxKeyPath (List.replicate 91 97)).take 100) ∧
    (100 : Nat) ≠ 101 := by
  refine ⟨by decide, by decide, by decide, by decide⟩

/-! ## Claim C2: counterexample -/

/-- C2 counterexample.  The claim says every accepted `generateData`
input of 1..512 bytes yields a full 512-byte zero-padded block.  With
1024 bytes of payload remaining, the one-byte chunk `[7]` is accepted
without error, yet the returned block is that one byte, unpadded. -/
theorem c2_counterexample :
    (do
      let r1 ← generateFile genInit [97] { size := some 1024 }
      let r2 ← generateData r1.2 [7]
      pure r2.1 : Except GenError Bytes) = .ok [7] ∧
    ([7] : Bytes).length ≠ blockSize := by
  refine ⟨by decide, by decide⟩

/-! ## Claim C4: counterexample -/

/-- C4 counterexample.  The claim says the 8-byte checksum field ends
with one NUL and one space.  The generator writes
`pad(checksum, 8, '0', '\0')`: seven zero-padded octal digits and a
single NUL, so the final byte of the field is 0, not the claimed
space (32). -/
theorem c4_counterexample :
    (generateHeader [97] .file { size := some 0 }).map
      (fun b => sliceL b checksumOff checksumSize) =
      .ok [48, 48, 48, 54, 48, 54, 48, 0] ∧
    (0 : Nat) ≠ 32 := by
  refine ⟨by decide, by decide⟩

/-! ## Claim C5: counterexample -/

/-- C5 counterexample.  The claim covers paths of length at most 100,
but `writeFilePath` tests `filePath.length < 100`, so a path of exactly
100 characters takes the split branch: the name field is left all NUL
and the path is stored in the field at offset 345 instead. -/
theorem c5_counterexample :
    (generateHeader (List.replicate 100 97) .file { size := some 0 }).map
      (fun b => (sliceL b fileNameOff fileNameSize,
        sliceL b prefixFieldOff prefixFieldSize)) =
      .ok (List.replicate 100 0,
        List.replicate 100 97 ++ List.replicate 55 0) ∧
    (List.replicate 100 0 : Bytes) ≠
      padEndL (List.replicate 100 97) 100 0 := by
  refine ⟨by decide, by decide⟩

/-! ## Claim C8: counterexample -/

/-- C2 amended.  Blocks from successful `generateFile`,
`generateDirectory`, `generateExtended` and `generateEnd` calls are
exactly 512 bytes.  `generateData` zero-pads only the tail case: when
fewer than 512 payload bytes remain, a chunk is accepted iff it is
exactly the remaining count, and the returned block is the chunk
zero-padded to 512 bytes; when at least 512 bytes remain, any chunk of
at most 512 bytes is accepted and returned unchanged (so a short chunk
yields a short, unpadded block there, contrary to the original
claim). -/
theorem c2_amended :
    (∀ (g : Generator) (p : Bytes) (st : FileStat),
      (generateFile g p st).map (fun r => r.1.length) =
        (generateFile g p st).map (fun _ => blockSize)) ∧
    (∀ (g : Generator) (p : Bytes) (st : Option FileStat),
      (generateDirectory g p st).map (fun r => r.1.length) =
        (generateDirectory g p st).map (fun _ => blockSize)) ∧
    (∀ (g : Generator) (n : Nat),
      (generateExtended g n).map (fun r => r.1.length) =
        (generateExtended g n).map (fun _ => blockSize)) ∧
    (∀ g : Generator,
      (generateEnd g).map (fun r => r.1.length) =
        (generateEnd g).map (fun _ => blockSize)) ∧
    (∀ (g : Generator) (d : Bytes), g.state = .data →
      g.remaining < blockSize →
      (((generateData g d).isOk = true) ↔ d.length = g.remaining) ∧
      (generateData g d).map (fun r => r.1) =
        (generateData g d).map
          (fun _ => d ++ List.replicate (blockSize - d.length) 0)) ∧
    (∀ (g : Generator) (d : Bytes), g.state = .data →
      blockSize ≤ g.remaining →
      (((generateData g d).isOk = true) ↔ d.length ≤ blockSize) ∧
      (generateData g d).map (fun r => r.1) =
        (generateData g d).map (fun _ => d)) := by
  refine ⟨?_, ?_, ?_, ?_, ?_, ?_⟩
  · intro g p st
    cases h : generateFile g p st with
    | error e => rfl
    | ok r =>
      simp only [Except.map]
      rw [generateHeader_length (generateFile_header h)]
  · intro g p st
    cases h : generateDirectory g p st with
    | error e => rfl
    | ok r =>
      simp only [Except.map]
      rw [generateHeader_length (generateDirectory_header h)]
  · intro g n
    cases h : generateExtended g n with
    | error e => rfl
    | ok r =>
      simp only [Except.map]
      rw [generateHeader_length (generateExtended_header h)]
  · intro g
    cases g with
    | mk s r =>
      cases s <;> simp [generateEnd, Except.map]
  · intro g d hstate hrem
    unfold generateData
    rw [hstate]
    simp only [if_pos rfl]
    by_cases hlen512 : d.length > blockSize
    · rw [if_pos hlen512]
      constructor
      · constructor
        · intro hok
          simp [Except.isOk, Except.toBool] at hok
        · intro hd
          omega
      · rfl
    · rw [if_neg hlen512, if_neg (show ¬ g.remaining ≥ blockSize by omega)]
      by_cases hdeq : d.length ≠ g.remaining
      · rw [if_pos hdeq]
        constructor
        · constructor
          · intro hok
            simp [Except.isOk, Except.toBool] at hok
          · intro hd
            exact absurd hd hdeq
        · rfl
      · rw [if_neg hdeq]
        constructor
        · simp [Except.isOk, Except.toBool]
          omega
        · rfl
  · intro g d hstate hrem
    unfold generateData
    rw [hstate]
    simp only [if_pos rfl]
    by_cases hlen512 : d.length > blockSize
    · rw [if_pos hlen512]
      constructor
      · constructor
        · intro hok
          simp [Except.isOk, Except.toBool] at hok
        · intro hd
          omega
      · rfl
    · rw [if_neg hlen512, if_pos hrem]
      constructor
      · simp [Except.isOk, Except.toBool]
        omega
      · rfl

/-- C2 amended, witness: concrete instances for the data cases (tail
case with 5 remaining bytes, mid-file case with 1024 remaining) and a
concrete header block length. -/
theorem c2_amended_witness :
    ((Generator.mk .data 5).state = GState.data ∧ (5 : Nat) < blockSize ∧
      (generateData (Generator.mk .data 5) [1, 2, 3, 4, 5]).map
          (fun r => r.1) =
        (generateData (Generator.mk .data 5) [1, 2, 3, 4, 5]).map
          (fun _ => [1, 2, 3, 4, 5] ++ List.replicate 507 0)) ∧
    ((Generator.mk .data 1024).state = GState.data ∧
      blockSize ≤ (Generator.mk .data 1024).remaining ∧
      (generateData (Generator.mk .data 1024) [7]).map (fun r => r.1) =
        (generateData (Generator.mk .data 1024) [7]).map (fun _ => [7])) ∧
    (generateFile genInit [98] { size := some 5 }).map
        (fun r => r.1.length) =
      (generateFile genInit [98] { size := some 5 }).map
        (fun _ => blockSize) := by
  refine ⟨⟨rfl, by decide, ?_⟩, ⟨rfl, by decide, ?_⟩, ?_⟩
  · have := (c2_amended.2.2.2.2.1 (Generator.mk .data 5) [1, 2, 3, 4, 5]
      rfl (by decide)).2
    simpa using this
  · exact (c2_amended.2.2.2.2.2 (Generator.mk .data 1024) [7]
      rfl (by decide)).2
  · exact c2_amended.1 genInit [98] { size := some 5 }

/-! ## Claim C10 -/

/-- C10.  In the header-expecting state, a 512-byte non-null block
that fails header validation (`parseHeader` throws: bad checksum,
magic, version or type flag) makes `write` return that error with the
parser state and remaining-byte counter untouched — every mutation in
the source happens after `parseHeader` returns.  Consequently feeding
the bad block and then any other block gives exactly the same result
for the second block as feeding it alone. -/
theorem c10_header_error_state (p : Parser) (b : Bytes) (e : ParseError)
    (hstate : p.state = .header) (hlen : b.length = blockSize)
    (hnull : isNullBlock b = false) (herr : parseHeaderE b = .error e) :
    parserWrite p b = (p, .error e) ∧
    ∀ b2 : Bytes, feedAll p [b, b2] =
      ((parserWrite p b2).1, [.error e, (parserWrite p b2).2]) := by
  have h1 : parserWrite p b = (p, .error e) := by
    unfold parserWrite
    rw [hlen]
    simp only [ne_eq, not_true_eq_false, if_false, ite_false]
    rw [hstate]
    simp only [hnull, Bool.false_eq_true, if_false, ite_false]
    rw [herr]
  refine ⟨h1, fun b2 => ?_⟩
  simp only [feedAll, h1]

/-- C10 witness: the all-ones block is non-null and fails validation
(its checksum field does not parse to the computed checksum), the
parser state is unchanged, and the same parser then parses a valid
generated header block into a header token. -/
theorem c10_header_error_state_witness :
    parserInit.state = PState.header ∧
    (List.replicate 512 1 : Bytes).length = blockSize ∧
    isNullBlock (List.replicate 512 1) = false ∧
    parseHeaderE (List.replicate 512 1) = .error .invalidHeader ∧
    parserWrite parserInit (List.replicate 512 1) =
      (parserInit, .error .invalidHeader) := by
  refine ⟨rfl, by decide, by decide, by decide, ?_⟩
  exact (c10_header_error_state parserInit (List.replicate 512 1)
    .invalidHeader rfl (by decide) (by decide) (by decide)).1


/-! ## Claim C4: amended theorem -/

/-- C4 amended.  Every header block the generator emits stores in the
8-byte checksum field at offset 148 the self-consistent checksum (the
field re-validates on the final block) as seven zero-padded octal
ASCII digits followed by a single NUL — not the NUL-then-space suffix
the original claim states.  Stated as a `map` equality over the same
`generateHeader` result, so failed generations are trivially equal. -/
theorem c4_amended (p : Bytes) (t : FType) (st : FileStat) :
    (generateHeader p t st).map
        (fun B => sliceL B checksumOff checksumSize) =
      (generateHeader p t st).map
        (fun B => padNum (calculateChecksum B) checksumSize [0]) := by
  cases h : generateHeader p t st with
  | error e => rfl
  | ok B =>
    simp only [Except.map]
    have hB := generateHeader_ok h
    have hlen : (headerCore p t st).length = blockSize := headerCore_length ..
    have hc : calculateChecksum (headerCore p t st) < 8 ^ 7 :=
      calculateChecksum_lt _ (headerCore_all_lt p t st) (by rw [hlen]; decide)
    rw [hB]
    rw [slice_writeChecksum_self _ _ hlen hc]
    rw [calculateChecksum_writeChecksum _ _ hlen]


/-! ## Claim C5: amended theorem -/

/-- C5 amended.  For every stored entry path of length at most 99 (the
source branches on `filePath.length < 100`, so length exactly 100 goes
to the split branch — see the counterexample), the emitted header
keeps the whole path NUL-padded in the 100-byte name field at offset 0
and leaves the 155-byte field at offset 345 all NUL.  The stored path
is the slash-adjusted path for directories and the path itself
otherwise; path bytes are assumed to be bytes (< 256), as JS strings
of wider characters would be truncated by the `Uint8Array` store. -/
theorem c5_amended (p : Bytes) (t : FType) (st : FileStat)
    (hq : (dirAdjustPath t p).length < 100)
    (hbytes : ∀ c ∈ dirAdjustPath t p, c < 256) :
    (generateHeader p t st).map
        (fun B => (sliceL B fileNameOff fileNameSize,
          sliceL B prefixFieldOff prefixFieldSize)) =
      (generateHeader p t st).map
        (fun _ => (padEndL (dirAdjustPath t p) fileNameSize 0,
          List.replicate prefixFieldSize 0)) := by
  cases h : generateHeader p t st with
  | error e => rfl
  | ok B =>
    simp only [Except.map, fileNameOff, fileNameSize, prefixFieldOff,
      prefixFieldSize]
    have hB := generateHeader_ok h
    have hlen : (headerCore p t st).length = blockSize := headerCore_length ..
    have hLayer : (writeFileType (writeUstarMagic
        (List.replicate blockSize 0)) t).length = blockSize := by
      simp
    rw [hB]
    rw [slice_writeChecksum_disjoint _ _ _ _ hlen (by decide),
      slice_writeChecksum_disjoint _ _ _ _ hlen (by decide)]
    rw [slice_core_name, slice_core_prefixF]
    rw [slice_path_name_low _ _ hq hLayer, slice_path_prefix_low _ _ hq hLayer]
    rw [slice_base_345]
    rw [List.take_of_length_le (by omega)]
    rw [padEndL_map_mod256 _ _ hbytes]

/-- C5 amended, witness: the one-byte file path `'a'`. -/
theorem c5_amended_witness :
    (dirAdjustPath .file [97]).length < 100 ∧
    (∀ c ∈ dirAdjustPath .file [97], c < 256) ∧
    (generateHeader [97] .file { size := some 0 }).map
        (fun B => (sliceL B fileNameOff fileNameSize,
          sliceL B prefixFieldOff prefixFieldSize)) =
      (generateHeader [97] .file { size := some 0 }).map
        (fun _ => (padEndL (dirAdjustPath .file [97]) fileNameSize 0,
          List.replicate prefixFieldSize 0)) := by
  refine ⟨by decide, by decide, ?_⟩
  exact c5_amended [97] .file { size := some 0 } (by decide) (by decide)


/-! ## Claim C8: amended theorem -/

/-- C9.  For a file of size `n > 0` whose header block takes the parser
into the data state with `remaining = n`, feeding the ⌈n/512⌉
zero-padded data blocks returns the header token followed by one data
token per block; the concatenated token payloads reproduce the content
exactly with no padding bleed, every token before the last carries 512
bytes with `end` false, and the last token carries `n mod 512` bytes
(512 when `n mod 512 = 0`) with `end` true. -/
theorem c9_data_tokens (H content : Bytes) (tok : TokenHeader)
    (hne : content ≠ [])
    (hH : parserWrite parserInit H =
      ({ state := .data, remaining := some (content.length : Int) },
        .ok (some (.header tok)))) :
    (feedAll parserInit (H :: chunkPad content)).2 =
      .ok (some (.header tok)) ::
        (dataRun content).map (fun de => .ok (some (.dataTok de.1 de.2))) ∧
    ((dataRun content).map Prod.fst).flatten = content ∧
    (dataRun content).length = (content.length + 511) / 512 ∧
    (∀ de ∈ (dataRun content).dropLast, de.1.length = 512 ∧ de.2 = false) ∧
    ∃ d : Bytes, (dataRun content).getLast? = some (d, true) ∧
      d.length = if content.length % 512 = 0 then 512
        else content.length % 512 := by
  obtain ⟨r, hr⟩ := feed_data_run content.length content hne le_rfl
  refine ⟨?_, dataRun_flatten content.length content le_rfl,
    dataRun_length_eq content.length content hne le_rfl,
    dataRun_dropLast content.length content le_rfl,
    dataRun_getLast content.length content hne le_rfl⟩
  show (feedAll parserInit (H :: chunkPadGo content.length content)).2 = _
  simp only [feedAll]
  rw [hH, hr]
  rfl

/-- C9 witness: the header generated for the one-byte path `'f'` with
size 3, followed by the single zero-padded data block of the content
`[10, 20, 30]`. -/
theorem c9_data_tokens_witness :
    (feedAll parserInit (c9WitnessHeader :: chunkPad [10, 20, 30])).2 =
      .ok (some (.header c9WitnessTok)) ::
        (dataRun [10, 20, 30]).map
          (fun de => .ok (some (.dataTok de.1 de.2))) ∧
    ((dataRun [10, 20, 30]).map Prod.fst).flatten = [10, 20, 30] ∧
    (dataRun [10, 20, 30]).length =
      (([10, 20, 30] : Bytes).length + 511) / 512 ∧
    (∀ de ∈ (dataRun [10, 20, 30]).dropLast,
      de.1.length = 512 ∧ de.2 = false) ∧
    ∃ d : Bytes, (dataRun [10, 20, 30]).getLast? = some (d, true) ∧
      d.length = if ([10, 20, 30] : Bytes).length % 512 = 0 then 512
        else ([10, 20, 30] : Bytes).length % 512 :=
  c9_data_tokens c9WitnessHeader [10, 20, 30] c9WitnessTok
    (by decide) (by decide)

end VirtualTar
